import Mathlib

/-
Shallow embedding of the authoritative game server of the
Multiplayer-bear-football repository (src/public/client.js, server part,
lines 1282-1558).  JavaScript numbers are modelled as real numbers; the
two sources of nondeterminism, Math.random() and uuidv4(), are modelled
as oracle streams threaded through the state, consumed index by index.
JS Maps are modelled as lists in insertion order (Map iteration order),
with Map.set replacing in place for an existing key and appending for a
new key, and Map.delete removing the matching entry.
-/

namespace GoalBall

open scoped Classical

noncomputable section

/-! ## Configuration constants (lines 1289-1303) -/

def WORLD_WIDTH : ℝ := 800

def WORLD_HEIGHT : ℝ := 600

def PLAYER_SPEED : ℝ := 3

def BALL_RADIUS : ℝ := 3

def PLAYER_RADIUS : ℝ := 5

def BALL_COUNT : ℕ := 5

def GOAL_WIDTH : ℝ := 60

def GOAL_DEPTH : ℝ := 20

/-! ## Data model -/

inductive Team where
  | left : Team
  | right : Team
deriving DecidableEq

structure Player where
  id : ℕ
  team : Team
  x : ℝ
  y : ℝ
  dirX : ℝ
  dirY : ℝ
  score : ℕ
  carryingBallId : Option ℕ
deriving DecidableEq

structure Ball where
  id : ℕ
  x : ℝ
  y : ℝ
  carriedBy : Option ℕ
deriving DecidableEq

/-- Oracle streams standing for Math.random() and uuidv4().  `rand` values
are consumed starting at index `rIdx`, ids starting at `idIdx`. -/
structure Oracle where
  rand : ℕ → ℝ
  rIdx : ℕ
  ids : ℕ → ℕ
  idIdx : ℕ

structure GameState where
  players : List Player
  balls : List Ball
  nextTeamIndex : ℕ
  oracle : Oracle

/-! ## Geometry helpers (lines 1306-1357) -/

/-- Math.max(lo, Math.min(hi, v)), the clamping pattern of the source. -/
def clampR (lo hi v : ℝ) : ℝ := max lo (min hi v)

/-- dist2 (line 1353): squared distance between two points. -/
def dist2 (x1 y1 x2 y2 : ℝ) : ℝ := (x1 - x2) * (x1 - x2) + (y1 - y2) * (y1 - y2)

/-- isInGoal (line 1342): containment of a point in a team's goal zone. -/
def isInGoal (team : Team) (x y : ℝ) : Prop :=
  match team with
  | Team.left => x < -(WORLD_WIDTH / 2) + GOAL_DEPTH ∧ |y| < GOAL_WIDTH / 2
  | Team.right => x > WORLD_WIDTH / 2 - GOAL_DEPTH ∧ |y| < GOAL_WIDTH / 2

/-- randInField (line 1306): two Math.random() draws give a point of the
field rectangle. -/
def randInField (o : Oracle) : ℝ × ℝ × Oracle :=
  (o.rand o.rIdx * WORLD_WIDTH - WORLD_WIDTH / 2,
   o.rand (o.rIdx + 1) * WORLD_HEIGHT - WORLD_HEIGHT / 2,
   { o with rIdx := o.rIdx + 2 })

/-! ## Entity factory (lines 1314-1339) -/

/-- createBall (line 1314): fresh uuid, random position, no carrier. -/
def createBall (o : Oracle) : Ball × Oracle :=
  let r := randInField o
  ({ id := o.ids o.idIdx, x := r.1, y := r.2.1, carriedBy := none },
   { r.2.2 with idIdx := o.idIdx + 1 })

/-- createPlayer (line 1325): spawn near the own edge, zero direction,
zero score, no carried ball. -/
def createPlayer (id : ℕ) (team : Team) : Player :=
  { id := id
    team := team
    x := if team = Team.left then -(WORLD_WIDTH / 2) + 40 else WORLD_WIDTH / 2 - 40
    y := 0
    dirX := 0
    dirY := 0
    score := 0
    carryingBallId := none }

/-! ## Map-as-list operations -/

def ballsGet (bs : List Ball) (i : ℕ) : Option Ball := bs.find? (fun b => b.id == i)

def ballsSetPos (bs : List Ball) (i : ℕ) (x y : ℝ) : List Ball :=
  bs.map (fun b => if b.id = i then { b with x := x, y := y } else b)

def ballsSetCarrier (bs : List Ball) (i : ℕ) (c : Option ℕ) : List Ball :=
  bs.map (fun b => if b.id = i then { b with carriedBy := c } else b)

def ballsDelete (bs : List Ball) (i : ℕ) : List Ball := bs.eraseP (fun b => b.id == i)

/-- Map.set for the balls map: replace in place when the key exists,
append otherwise. -/
def ballsInsert (bs : List Ball) (b : Ball) : List Ball :=
  if bs.any (fun x => x.id == b.id) then bs.map (fun x => if x.id = b.id then b else x)
  else bs ++ [b]

/-- Map.set for the players map. -/
def playersInsert (ps : List Player) (p : Player) : List Player :=
  if ps.any (fun q => q.id == p.id) then ps.map (fun q => if q.id = p.id then p else q)
  else ps ++ [p]

/-! ## Simulation tick (update, lines 1374-1474) -/

/-- Movement phase of the per-player loop body (lines 1377-1388):
normalize a non-zero direction, move by PLAYER_SPEED, clamp into the
field inset by PLAYER_RADIUS; a zero direction leaves the position
untouched. -/
def movePlayer (p : Player) : Player :=
  if p.dirX ≠ 0 ∨ p.dirY ≠ 0 then
    let mag := Real.sqrt (p.dirX * p.dirX + p.dirY * p.dirY)
    let nx := p.dirX / mag
    let ny := p.dirY / mag
    { p with
      x := clampR (-(WORLD_WIDTH / 2) + PLAYER_RADIUS) (WORLD_WIDTH / 2 - PLAYER_RADIUS)
             (p.x + nx * PLAYER_SPEED)
      y := clampR (-(WORLD_HEIGHT / 2) + PLAYER_RADIUS) (WORLD_HEIGHT / 2 - PLAYER_RADIUS)
             (p.y + ny * PLAYER_SPEED) }
  else p

/-- Carried-ball follow (lines 1391-1397): a carried ball's position is
set to the carrier's position, a stale reference is a no-op. -/
def followBall (p : Player) (bs : List Ball) : List Ball :=
  match p.carryingBallId with
  | some bid =>
    match ballsGet bs bid with
    | some _ => ballsSetPos bs bid p.x p.y
    | none => bs
  | none => bs

/-- One iteration of the movement/follow/scoring loop (lines 1376-1413)
for a single player. -/
def moveScoreOne (p0 : Player) (bs : List Ball) (o : Oracle) : Player × List Ball × Oracle :=
  let p := movePlayer p0
  let bs1 := followBall p bs
  match p.carryingBallId with
  | some bid =>
    if isInGoal p.team p.x p.y then
      let p1 := { p with score := p.score + 1, carryingBallId := none }
      match ballsGet bs1 bid with
      | some _ =>
        let bs2 := ballsDelete bs1 bid
        let cb := createBall o
        (p1, ballsInsert bs2 cb.1, cb.2)
      | none => (p1, bs1, o)
    else (p, bs1, o)
  | none => (p, bs1, o)

/-- The movement/follow/scoring loop over all players in map order. -/
def moveScoreAll : List Player → List Ball → Oracle → List Player × List Ball × Oracle
  | [], bs, o => ([], bs, o)
  | p :: ps, bs, o =>
    let r := moveScoreOne p bs o
    let rest := moveScoreAll ps r.2.1 r.2.2
    (r.1 :: rest.1, rest.2.1, rest.2.2)

/-- The inner scan of the pickup loop (lines 1418-1428): first ball in
map order that is uncarried and strictly within squared pickup range. -/
def findBall (px py : ℝ) : List Ball → Option ℕ
  | [] => none
  | b :: rest =>
    if b.carriedBy ≠ none then findBall px py rest
    else if dist2 px py b.x b.y < (PLAYER_RADIUS + BALL_RADIUS) ^ 2 then some b.id
    else findBall px py rest

/-- One iteration of the pickup loop (lines 1416-1429) for a single
player: a carrying player is skipped, otherwise the first eligible ball
is acquired on both sides. -/
def pickOne (p : Player) (bs : List Ball) : Player × List Ball :=
  match p.carryingBallId with
  | some _ => (p, bs)
  | none =>
    match findBall p.x p.y bs with
    | some bid => ({ p with carryingBallId := some bid }, ballsSetCarrier bs bid (some p.id))
    | none => (p, bs)

/-- The pickup loop over all players in map order. -/
def pickAll : List Player → List Ball → List Player × List Ball
  | [], bs => ([], bs)
  | p :: ps, bs =>
    let r := pickOne p bs
    let rest := pickAll ps r.2
    (r.1 :: rest.1, rest.2)

def collisionDist2 : ℝ := (PLAYER_RADIUS * 2) ^ 2

/-- Forced drop of a carried ball on collision (lines 1454-1467):
carrier cleared on the ball side when the ball exists, player side
cleared unconditionally. -/
def dropBall (p : Player) (bs : List Ball) : Player × List Ball :=
  match p.carryingBallId with
  | some bid => ({ p with carryingBallId := none }, ballsSetCarrier bs bid none)
  | none => (p, bs)

/-- The body of the player-player collision loop (lines 1437-1468) for
one ordered pair: on overlap, symmetric displacement by
sqrt(collisionDist2 - d2)/2 along the centre line (with the || 0.0001
degenerate guard of the source), then both drop carried balls. -/
def collidePair (p1 p2 : Player) (bs : List Ball) : Player × Player × List Ball :=
  let d2 := dist2 p1.x p1.y p2.x p2.y
  if d2 < collisionDist2 then
    let dx := p1.x - p2.x
    let dy := p1.y - p2.y
    let mag0 := Real.sqrt (dx * dx + dy * dy)
    let mag := if mag0 = 0 then 0.0001 else mag0
    let overlap := Real.sqrt (collisionDist2 - d2) / 2
    let nx := dx / mag
    let ny := dy / mag
    let q1 := { p1 with x := p1.x + nx * overlap, y := p1.y + ny * overlap }
    let q2 := { p2 with x := p2.x - nx * overlap, y := p2.y - ny * overlap }
    let r1 := dropBall q1 bs
    let r2 := dropBall q2 r1.2
    (r1.1, r2.1, r2.2)
  else (p1, p2, bs)

/-- The index pairs (i, j), i < j, visited by the nested collision
loops, in source order. -/
def pairList (n : ℕ) : List (ℕ × ℕ) :=
  (List.range n).flatMap (fun i => ((List.range n).filter (fun j => i < j)).map (fun j => (i, j)))

/-- One step of the collision double loop: read the two players at the
pair's indices, collide them, write both back in place. -/
def collideFold (acc : List Player × List Ball) (ij : ℕ × ℕ) : List Player × List Ball :=
  match acc.1.get? ij.1, acc.1.get? ij.2 with
  | some p1, some p2 =>
    let r := collidePair p1 p2 acc.2
    ((acc.1.set ij.1 r.1).set ij.2 r.2.1, r.2.2)
  | _, _ => acc

/-- The player-player collision loop (lines 1432-1470): the array is
captured once, pairs are processed in order, each pair seeing the
updates of earlier pairs. -/
def collideStep (ps : List Player) (bs : List Ball) : List Player × List Ball :=
  (pairList ps.length).foldl collideFold (ps, bs)

/-- update (line 1374): one full tick — movement/follow/scoring, pickup,
collision.  The broadcast reads the state without changing it. -/
def update (s : GameState) : GameState :=
  let r1 := moveScoreAll s.players s.balls s.oracle
  let r2 := pickAll r1.1 r1.2.1
  let r3 := collideStep r2.1 r2.2
  { s with players := r3.1, balls := r3.2, oracle := r1.2.2 }

/-! ## Connection registry and input (lines 1517-1549) -/

/-- TEAMS[nextTeamIndex % TEAMS.length] (line 1519). -/
def teamOfIndex (n : ℕ) : Team := if n % 2 = 0 then Team.left else Team.right

/-- Connection handler (lines 1517-1526): round-robin team, fresh uuid,
player registered. -/
def onConnect (s : GameState) : GameState :=
  let team := teamOfIndex s.nextTeamIndex
  let id := s.oracle.ids s.oracle.idIdx
  { s with
    players := playersInsert s.players (createPlayer id team)
    nextTeamIndex := s.nextTeamIndex + 1
    oracle := { s.oracle with idIdx := s.oracle.idIdx + 1 } }

/-- Close handler (lines 1547-1549): the player is deleted from the map;
nothing else is touched. -/
def onDisconnect (s : GameState) (pid : ℕ) : GameState :=
  { s with players := s.players.eraseP (fun p => p.id == pid) }

/-- Math.max(-1, Math.min(1, v)) on a numeric input component. -/
def clampInput (v : ℝ) : ℝ := max (-1) (min 1 v)

/-- Numeric input path of the message handler (lines 1531-1540): clamp
both components and store them; unknown player is a no-op. -/
def onInput (s : GameState) (pid : ℕ) (x y : ℝ) : GameState :=
  { s with
    players := s.players.map (fun p =>
      if p.id = pid then { p with dirX := clampInput x, dirY := clampInput y } else p) }

/-! ## Server lifetime -/

inductive Event where
  | tick : Event
  | connect : Event
  | disconnect : ℕ → Event
  | input : ℕ → ℝ → ℝ → Event

def applyEvent (s : GameState) : Event → GameState
  | Event.tick => update s
  | Event.connect => onConnect s
  | Event.disconnect pid => onDisconnect s pid
  | Event.input pid x y => onInput s pid x y

def run (s : GameState) : List Event → GameState
  | [] => s
  | e :: es => run (applyEvent s e) es

/-- Ball pool initialisation (lines 1365-1368). -/
def initBalls : ℕ → Oracle → List Ball × Oracle
  | 0, o => ([], o)
  | n + 1, o =>
    let cb := createBall o
    let rest := initBalls n cb.2
    (cb.1 :: rest.1, rest.2)

/-- Server startup state: empty maps, BALL_COUNT balls created. -/
def initState (rand : ℕ → ℝ) (ids : ℕ → ℕ) : GameState :=
  let r := initBalls BALL_COUNT ⟨rand, 0, ids, 0⟩
  { players := [], balls := r.1, nextTeamIndex := 0, oracle := r.2 }

/-! ## Snapshot (broadcastState, lines 1479-1508) -/

structure PlayerSnap where
  id : ℕ
  team : Team
  x : ℝ
  y : ℝ
  score : ℕ
deriving DecidableEq

structure BallSnap where
  id : ℕ
  x : ℝ
  y : ℝ
  carriedBy : Option ℕ
deriving DecidableEq

structure Snapshot where
  players : List PlayerSnap
  balls : List BallSnap
deriving DecidableEq

def snapshot (s : GameState) : Snapshot :=
  { players := s.players.map (fun p => ⟨p.id, p.team, p.x, p.y, p.score⟩)
    balls := s.balls.map (fun b => ⟨b.id, b.x, b.y, b.carriedBy⟩) }

/-- The sequence of snapshots broadcast over a run, one per tick. -/
def snapTrace : GameState → List Event → List Snapshot
  | _, [] => []
  | s, e :: es =>
    let s' := applyEvent s e
    match e with
    | Event.tick => snapshot s' :: snapTrace s' es
    | _ => snapTrace s' es

/-! ## Inbound message gateway (lines 1528-1545)

The handler parses JSON in a try block; only a parse failure reaches the
catch (the logged diagnostic).  A parsed input message destructures x
and y, which may be absent: Math.min / Math.max coerce an undefined
argument to NaN and propagate it.  The NaN-aware fragment of JS number
arithmetic used here is modelled exactly by `JsNum`. -/

inductive JsNum where
  | nan : JsNum
  | num : ℝ → JsNum
deriving DecidableEq

/-- Math.min restricted to the two-argument form of the source. -/
def jsMin : JsNum → JsNum → JsNum
  | JsNum.nan, _ => JsNum.nan
  | _, JsNum.nan => JsNum.nan
  | JsNum.num a, JsNum.num b => JsNum.num (min a b)

/-- Math.max restricted to the two-argument form of the source. -/
def jsMax : JsNum → JsNum → JsNum
  | JsNum.nan, _ => JsNum.nan
  | _, JsNum.nan => JsNum.nan
  | JsNum.num a, JsNum.num b => JsNum.num (max a b)

/-- Value of a destructured message field: a number, or undefined when
the field is missing. -/
inductive JsVal where
  | num : ℝ → JsVal
  | undef : JsVal
deriving DecidableEq

/-- ToNumber coercion performed by Math.min / Math.max on its argument:
undefined coerces to NaN. -/
def toNumber : JsVal → JsNum
  | JsVal.num r => JsNum.num r
  | JsVal.undef => JsNum.nan

/-- An inbound frame: either JSON.parse throws, or it yields an object
with a type tag (none when absent or not a string) and x, y fields. -/
inductive Inbound where
  | unparsable : Inbound
  | msg : Option String → JsVal → JsVal → Inbound

def inputTag : String := "input"

/-- The stored direction of the session's player, as the message handler
sees and writes it. -/
structure GwDir where
  dirX : JsNum
  dirY : JsNum
deriving DecidableEq

/-- Outcome of one message-handler invocation: the player's direction
after the handler, whether a diagnostic was logged, and whether the
handler closed the connection. -/
structure GwOutcome where
  dir : GwDir
  logged : Bool
  closed : Bool
deriving DecidableEq

/-- handleMessage (lines 1528-1545): an unparsable frame is logged and
dropped; a parsed frame tagged input clamps msg.x and msg.y through
Math.max(-1, Math.min(1, _)) and stores them; any other frame is
ignored.  The handler never closes the connection. -/
def handleMessage (d : GwDir) : Inbound → GwOutcome
  | Inbound.unparsable => ⟨d, true, false⟩
  | Inbound.msg t x y =>
    if t = some inputTag then
      ⟨⟨jsMax (JsNum.num (-1)) (jsMin (JsNum.num 1) (toNumber x)),
        jsMax (JsNum.num (-1)) (jsMin (JsNum.num 1) (toNumber y))⟩, false, false⟩
    else ⟨d, false, false⟩

/-! ## Properties stated over the embedding -/

/-- Coordinates inside the field rectangle inset by the player radius,
the clamp target of the movement step. -/
def InsetBounds (x y : ℝ) : Prop :=
  -(WORLD_WIDTH / 2) + PLAYER_RADIUS ≤ x ∧ x ≤ WORLD_WIDTH / 2 - PLAYER_RADIUS ∧
  -(WORLD_HEIGHT / 2) + PLAYER_RADIUS ≤ y ∧ y ≤ WORLD_HEIGHT / 2 - PLAYER_RADIUS

/-- Coordinates inside the field rectangle. -/
def InField (x y : ℝ) : Prop :=
  -(WORLD_WIDTH / 2) ≤ x ∧ x ≤ WORLD_WIDTH / 2 ∧
  -(WORLD_HEIGHT / 2) ≤ y ∧ y ≤ WORLD_HEIGHT / 2

/-- Carry bijection, player-by-player: a ball points at a live player
iff that player points back at the ball. -/
def CarryConsistent (s : GameState) : Prop :=
  ∀ b ∈ s.balls, ∀ p ∈ s.players, (b.carriedBy = some p.id ↔ p.carryingBallId = some b.id)

/-- Every carried ball is carried by a live player. -/
def CarriersLive (s : GameState) : Prop :=
  ∀ b ∈ s.balls, ∀ q, b.carriedBy = some q → ∃ p ∈ s.players, p.id = q

/-- Every carrying player carries a live ball. -/
def CarriedLive (s : GameState) : Prop :=
  ∀ p ∈ s.players, ∀ i, p.carryingBallId = some i → ∃ b ∈ s.balls, b.id = i

/-- No two players have the same carryingBallId. -/
def CarryInj (s : GameState) : Prop :=
  ∀ p ∈ s.players, ∀ q ∈ s.players, ∀ i,
    p.carryingBallId = some i → q.carryingBallId = some i → p = q

/-- The carry relation is a bijection between carrying players and
carried balls. -/
def CarryBij (s : GameState) : Prop :=
  CarryConsistent s ∧ CarriersLive s ∧ CarriedLive s ∧ CarryInj s

/-- A ball is eligible for pickup by a player at (px, py): uncarried and
strictly within squared pickup range. -/
def Eligible (px py : ℝ) (b : Ball) : Prop :=
  b.carriedBy = none ∧ dist2 px py b.x b.y < (PLAYER_RADIUS + BALL_RADIUS) ^ 2

/-- b is the first eligible ball of the list in scan order. -/
def FirstEligible (px py : ℝ) (bs : List Ball) (bid : ℕ) : Prop :=
  ∃ pre b post, bs = pre ++ b :: post ∧ b.id = bid ∧ Eligible px py b ∧
    ∀ b' ∈ pre, ¬ Eligible px py b'

/-- Soundness of the id oracle: uuidv4 never repeats and never collides
with an id already live in the state. -/
def FreshIds (s : GameState) : Prop :=
  Function.Injective s.oracle.ids ∧
  ∀ n, s.oracle.idIdx ≤ n →
    (∀ p ∈ s.players, p.id ≠ s.oracle.ids n ∧ p.carryingBallId ≠ some (s.oracle.ids n)) ∧
    (∀ b ∈ s.balls, b.id ≠ s.oracle.ids n)

/-- Range of Math.random(): every draw lies in [0, 1). -/
def RandInRange (o : Oracle) : Prop := ∀ n, 0 ≤ o.rand n ∧ o.rand n < 1

/-- The player fields no tick phase but scoring ever writes. -/
def staticF (p : Player) : ℕ × Team × ℕ × ℝ × ℝ := (p.id, p.team, p.score, p.dirX, p.dirY)

/-- A ball's identity and position. -/
def idPos (b : Ball) : ℕ × ℝ × ℝ := (b.id, b.x, b.y)

/-- Soundness of the id oracle relative to the live ball ids only. -/
def BallsFresh (bs : List Ball) (o : Oracle) : Prop :=
  Function.Injective o.ids ∧ ∀ n, o.idIdx ≤ n → ∀ b ∈ bs, b.id ≠ o.ids n

/-- How one tick may relate an input player to its output: identity and
team unchanged, score unchanged or incremented by exactly one. -/
def scoreRel (p q : Player) : Prop :=
  q.id = p.id ∧ q.team = p.team ∧ (q.score = p.score ∨ q.score = p.score + 1)

/-! ## Concrete states used to exercise the code -/

/-- A server state with one player (id 1, team left) carrying ball 10,
and four free balls parked far away; the oracle has already consumed
ten random draws and two ids. -/
def demoState : GameState :=
  { players := [⟨1, Team.left, 100, 0, 0, 0, 0, some 10⟩]
    balls := [⟨10, 100, 0, some 1⟩, ⟨11, -200, 200, none⟩, ⟨12, -100, 200, none⟩,
              ⟨13, 0, 200, none⟩, ⟨14, 200, 200, none⟩]
    nextTeamIndex := 1
    oracle := ⟨fun _ => 1 / 2, 10, fun n => 100 + n, 2⟩ }

/-- The ball map and oracle as the movement/scoring loop reaches player
index i: the first i players have already been processed. -/
def msAt (ps : List Player) (bs : List Ball) (o : Oracle) (i : ℕ) : List Ball × Oracle :=
  (moveScoreAll (ps.take i) bs o).2

/-- The ball map as the pickup scan reaches player index i: the first i
players have already been processed. -/
def availAt (ps : List Player) (bs : List Ball) (i : ℕ) : List Ball :=
  (pickAll (ps.take i) bs).2

/-- A server state with two stationary overlapping players close to the
right wall (distance 8 < 10 between their centres) and five free balls
parked far away; used to exercise the collision separation. -/
def wallState : GameState :=
  { players := [⟨1, Team.right, 395, 0, 0, 0, 0, none⟩,
                ⟨2, Team.right, 387, 0, 0, 0, 0, none⟩]
    balls := [⟨10, -200, 200, none⟩, ⟨11, -100, 200, none⟩, ⟨12, 0, 200, none⟩,
              ⟨13, 100, 200, none⟩, ⟨14, 200, 200, none⟩]
    nextTeamIndex := 2
    oracle := ⟨fun _ => 1 / 2, 0, fun n => 100 + n, 0⟩ }

/-- A server state with one stationary player (id 1, team left) standing
inside the left goal zone and carrying ball 10, plus four free balls
parked far away; used to exercise the scoring branch. -/
def goalState : GameState :=
  { players := [⟨1, Team.left, -390, 0, 0, 0, 0, some 10⟩]
    balls := [⟨10, -390, 0, some 1⟩, ⟨11, -200, 200, none⟩, ⟨12, -100, 200, none⟩,
              ⟨13, 0, 200, none⟩, ⟨14, 200, 200, none⟩]
    nextTeamIndex := 1
    oracle := ⟨fun _ => 1 / 2, 10, fun n => 100 + n, 2⟩ }

/-! # Theorems -/

/-! ## Generic list helpers -/

theorem setSelf {α : Type} {l : List α} {i : ℕ} {a : α} (h : l[i]? = some a) :
    l.set i a = l := by
  apply List.ext_getElem?
  intro n
  rw [List.getElem?_set]
  by_cases hn : i = n
  · subst hn
    by_cases hi : i < l.length
    · simp [hi, ← h]
    · exact absurd h (by simp [List.getElem?_eq_none (le_of_not_lt hi)])
  · simp [hn]

theorem forall2_chain {α : Type} {R S T : α → α → Prop}
    (hc : ∀ a b c, R a b → S b c → T a c) :
    ∀ {l1 l2 l3 : List α}, List.Forall₂ R l1 l2 → List.Forall₂ S l2 l3 →
      List.Forall₂ T l1 l3 := by
  intro l1 l2 l3 h12 h23
  induction h12 generalizing l3 with
  | nil => cases h23; exact List.Forall₂.nil
  | cons hab htl ih =>
    cases h23 with
    | cons hbc htl' => exact List.Forall₂.cons (hc _ _ _ hab hbc) (ih htl')

theorem forall2_of_map_eq {α β : Type} {f : α → β} :
    ∀ {l1 l2 : List α}, l1.map f = l2.map f → List.Forall₂ (fun a b => f b = f a) l1 l2 := by
  intro l1
  induction l1 with
  | nil => intro l2 h; cases l2 with
    | nil => exact List.Forall₂.nil
    | cons b t => simp at h
  | cons a t ih => intro l2 h; cases l2 with
    | nil => simp at h
    | cons b t2 =>
      simp only [List.map, List.cons.injEq] at h
      exact List.Forall₂.cons h.1.symm (ih h.2)

/-! ## Field-preservation lemmas for the tick phases -/

theorem movePlayer_shape (p : Player) :
    (movePlayer p).id = p.id ∧ (movePlayer p).team = p.team ∧
    (movePlayer p).dirX = p.dirX ∧ (movePlayer p).dirY = p.dirY ∧
    (movePlayer p).score = p.score ∧ (movePlayer p).carryingBallId = p.carryingBallId := by
  unfold movePlayer
  split <;> exact ⟨rfl, rfl, rfl, rfl, rfl, rfl⟩

theorem ballsSetPos_idPos_carried (bs : List Ball) (i : ℕ) (x y : ℝ) :
    (ballsSetPos bs i x y).map Ball.id = bs.map Ball.id ∧
    (ballsSetPos bs i x y).map Ball.carriedBy = bs.map Ball.carriedBy ∧
    (ballsSetPos bs i x y).length = bs.length := by
  refine ⟨?_, ?_, by simp [ballsSetPos]⟩ <;>
  · unfold ballsSetPos
    rw [List.map_map]
    apply List.map_congr_left
    intro b _
    by_cases h : b.id = i <;> simp [h]

theorem ballsSetCarrier_idPos (bs : List Ball) (i : ℕ) (c : Option ℕ) :
    (ballsSetCarrier bs i c).map Ball.id = bs.map Ball.id ∧
    (ballsSetCarrier bs i c).map idPos = bs.map idPos ∧
    (ballsSetCarrier bs i c).length = bs.length := by
  refine ⟨?_, ?_, by simp [ballsSetCarrier]⟩ <;>
  · unfold ballsSetCarrier
    rw [List.map_map]
    apply List.map_congr_left
    intro b _
    by_cases h : b.id = i <;> simp [h, idPos]

theorem ballsGet_mem {bs : List Ball} {i : ℕ} {b : Ball} (h : ballsGet bs i = some b) :
    b ∈ bs ∧ b.id = i := by
  unfold ballsGet at h
  refine ⟨List.mem_of_find?_eq_some h, ?_⟩
  have := List.find?_some h
  simpa using this

theorem followBall_shape (p : Player) (bs : List Ball) :
    (followBall p bs).map Ball.id = bs.map Ball.id ∧
    (followBall p bs).map Ball.carriedBy = bs.map Ball.carriedBy ∧
    (followBall p bs).length = bs.length := by
  unfold followBall
  split
  · split
    · exact ballsSetPos_idPos_carried ..
    · exact ⟨rfl, rfl, rfl⟩
  · exact ⟨rfl, rfl, rfl⟩

theorem ballsInsert_of_fresh {bs : List Ball} {b : Ball} (h : ∀ x ∈ bs, x.id ≠ b.id) :
    ballsInsert bs b = bs ++ [b] := by
  unfold ballsInsert
  rw [if_neg]
  simp only [List.any_eq_true, beq_iff_eq, not_exists, not_and]
  exact fun x hx => h x hx

theorem ballsDelete_subset {bs : List Ball} {i : ℕ} : ∀ b ∈ ballsDelete bs i, b ∈ bs :=
  fun _ hb => (List.eraseP_sublist bs).subset hb

theorem ballsDelete_length {bs : List Ball} {i : ℕ} {b : Ball}
    (hb : b ∈ bs) (hbi : b.id = i) : (ballsDelete bs i).length + 1 = bs.length := by
  unfold ballsDelete
  rw [List.length_eraseP_of_mem hb (by simp [hbi])]
  have : 1 ≤ bs.length := List.length_pos.mpr (by rintro rfl; exact List.not_mem_nil b hb)
  omega

/-- The scoring branch leaves the moved player as is or clears its carry
and bumps its score by exactly one. -/
theorem moveScoreOne_player_shape (p : Player) (bs : List Ball) (o : Oracle) :
    (moveScoreOne p bs o).1 = movePlayer p ∨
    (moveScoreOne p bs o).1 =
      { movePlayer p with score := (movePlayer p).score + 1, carryingBallId := none } := by
  unfold moveScoreOne
  dsimp only
  split
  · split
    · split
      · right; rfl
      · right; rfl
    · left; rfl
  · left; rfl

/-- The balls after one movement/scoring iteration: unchanged but for
the follow, or with the carried ball replaced by a freshly created one. -/
theorem moveScoreOne_balls_shape (p : Player) (bs : List Ball) (o : Oracle) :
    ((moveScoreOne p bs o).2.1 = followBall (movePlayer p) bs ∧
      (moveScoreOne p bs o).2.2 = o) ∨
    (∃ bid b, ballsGet (followBall (movePlayer p) bs) bid = some b ∧
      (moveScoreOne p bs o).2.1 =
        ballsInsert (ballsDelete (followBall (movePlayer p) bs) bid) (createBall o).1 ∧
      (moveScoreOne p bs o).2.2 = (createBall o).2) := by
  unfold moveScoreOne
  dsimp only
  split
  · split
    · split
      · rename_i b hget
        exact Or.inr ⟨_, b, hget, rfl, rfl⟩
      · left; exact ⟨rfl, rfl⟩
    · left; exact ⟨rfl, rfl⟩
  · left; exact ⟨rfl, rfl⟩

theorem moveScoreOne_oracle (p : Player) (bs : List Ball) (o : Oracle) :
    (moveScoreOne p bs o).2.2.ids = o.ids ∧ (moveScoreOne p bs o).2.2.rand = o.rand ∧
    o.idIdx ≤ (moveScoreOne p bs o).2.2.idIdx ∧ o.rIdx ≤ (moveScoreOne p bs o).2.2.rIdx := by
  rcases moveScoreOne_balls_shape p bs o with ⟨_, h⟩ | ⟨_, _, _, _, h⟩ <;>
    rw [h] <;> simp [createBall, randInField]

theorem ballsInsert_sub {bs : List Ball} {b : Ball} :
    ∀ b' ∈ ballsInsert bs b, b' ∈ bs ++ [b] := by
  intro b' hb'
  unfold ballsInsert at hb'
  split at hb'
  · obtain ⟨x, hx, hxe⟩ := List.mem_map.mp hb'
    by_cases h : x.id = b.id
    · rw [if_pos h] at hxe
      subst hxe
      exact List.mem_append_right _ (List.mem_singleton.mpr rfl)
    · rw [if_neg h] at hxe
      subst hxe
      exact List.mem_append_left _ hx
  · exact hb'

/-- Ball-id tracking for one iteration: every output ball id is an input
ball id, or the consumed oracle id together with the id index bump. -/
theorem moveScoreOne_ball_ids (p : Player) (bs : List Ball) (o : Oracle) :
    ∀ b' ∈ (moveScoreOne p bs o).2.1,
      b'.id ∈ bs.map Ball.id ∨
      (b'.id = o.ids o.idIdx ∧ (moveScoreOne p bs o).2.2.idIdx = o.idIdx + 1) := by
  intro b' hb'
  rcases moveScoreOne_balls_shape p bs o with ⟨h, _⟩ | ⟨bid, b, hget, h, ho⟩
  · rw [h] at hb'
    left
    rw [← (followBall_shape (movePlayer p) bs).1]
    exact List.mem_map_of_mem Ball.id hb'
  · rw [h] at hb'
    have hsub := ballsInsert_sub _ hb'
    rcases List.mem_append.mp hsub with hmem | hmem
    · left
      rw [← (followBall_shape (movePlayer p) bs).1]
      exact List.mem_map_of_mem Ball.id (ballsDelete_subset _ hmem)
    · right
      have hbe : b' = (createBall o).1 := List.mem_singleton.mp hmem
      rw [hbe, ho]
      exact ⟨rfl, rfl⟩

theorem moveScoreOne_fresh {bs : List Ball} {o : Oracle} (p : Player)
    (h : BallsFresh bs o) :
    BallsFresh (moveScoreOne p bs o).2.1 (moveScoreOne p bs o).2.2 := by
  obtain ⟨hinj, hfr⟩ := h
  have ho := moveScoreOne_oracle p bs o
  refine ⟨by rw [ho.1]; exact hinj, ?_⟩
  intro n hn b' hb'
  rw [ho.1]
  rcases moveScoreOne_ball_ids p bs o b' hb' with hid | ⟨hid, hidx⟩
  · obtain ⟨b0, hb0, hb0id⟩ := List.mem_map.mp hid
    rw [← hb0id]
    exact hfr n (le_trans ho.2.2.1 hn) b0 hb0
  · rw [hid]
    intro hcontra
    have hidn : o.idIdx = n := hinj hcontra
    rw [hidx] at hn
    omega

theorem moveScoreOne_length {bs : List Ball} {o : Oracle} (p : Player)
    (h : BallsFresh bs o) : (moveScoreOne p bs o).2.1.length = bs.length := by
  rcases moveScoreOne_balls_shape p bs o with ⟨h1, _⟩ | ⟨bid, b, hget, h1, _⟩
  · rw [h1]
    exact (followBall_shape _ _).2.2
  · rw [h1]
    obtain ⟨hbmem, hbid⟩ := ballsGet_mem hget
    have hfr : ∀ x ∈ ballsDelete (followBall (movePlayer p) bs) bid,
        x.id ≠ (createBall o).1.id := by
      intro x hx
      have hx2 : x.id ∈ bs.map Ball.id := by
        rw [← (followBall_shape (movePlayer p) bs).1]
        exact List.mem_map_of_mem Ball.id (ballsDelete_subset _ hx)
      obtain ⟨x0, hx0, hx0id⟩ := List.mem_map.mp hx2
      rw [← hx0id]
      exact h.2 o.idIdx le_rfl x0 hx0
    rw [ballsInsert_of_fresh hfr, List.length_append]
    have hlen := ballsDelete_length hbmem hbid
    have hflen : (followBall (movePlayer p) bs).length = bs.length :=
      (followBall_shape _ _).2.2
    simp only [List.length_singleton]
    omega

theorem moveScoreAll_cons_players (p : Player) (ps : List Player) (bs : List Ball)
    (o : Oracle) :
    (moveScoreAll (p :: ps) bs o).1 =
      (moveScoreOne p bs o).1 ::
        (moveScoreAll ps (moveScoreOne p bs o).2.1 (moveScoreOne p bs o).2.2).1 := rfl

theorem moveScoreAll_cons_balls (p : Player) (ps : List Player) (bs : List Ball)
    (o : Oracle) :
    (moveScoreAll (p :: ps) bs o).2.1 =
      (moveScoreAll ps (moveScoreOne p bs o).2.1 (moveScoreOne p bs o).2.2).2.1 := rfl

theorem moveScoreAll_cons_oracle (p : Player) (ps : List Player) (bs : List Ball)
    (o : Oracle) :
    (moveScoreAll (p :: ps) bs o).2.2 =
      (moveScoreAll ps (moveScoreOne p bs o).2.1 (moveScoreOne p bs o).2.2).2.2 := rfl

theorem moveScoreAll_oracle (ps : List Player) :
    ∀ (bs : List Ball) (o : Oracle),
      (moveScoreAll ps bs o).2.2.ids = o.ids ∧ (moveScoreAll ps bs o).2.2.rand = o.rand ∧
      o.idIdx ≤ (moveScoreAll ps bs o).2.2.idIdx ∧
      o.rIdx ≤ (moveScoreAll ps bs o).2.2.rIdx := by
  induction ps with
  | nil => intro bs o; exact ⟨rfl, rfl, le_rfl, le_rfl⟩
  | cons p ps ih =>
    intro bs o
    have h1 := moveScoreOne_oracle p bs o
    have h2 := ih (moveScoreOne p bs o).2.1 (moveScoreOne p bs o).2.2
    exact ⟨h2.1.trans h1.1, h2.2.1.trans h1.2.1, le_trans h1.2.2.1 h2.2.2.1,
      le_trans h1.2.2.2 h2.2.2.2⟩

theorem moveScoreAll_fresh_len (ps : List Player) :
    ∀ {bs : List Ball} {o : Oracle}, BallsFresh bs o →
      BallsFresh (moveScoreAll ps bs o).2.1 (moveScoreAll ps bs o).2.2 ∧
      (moveScoreAll ps bs o).2.1.length = bs.length := by
  induction ps with
  | nil => intro bs o h; exact ⟨h, rfl⟩
  | cons p ps ih =>
    intro bs o h
    have h1 := moveScoreOne_fresh p h
    have h2 := moveScoreOne_length p h
    obtain ⟨ha, hb⟩ := ih h1
    exact ⟨ha, hb.trans h2⟩

/-- Each player is mapped by the movement/scoring loop to a player with
the same id and team and a score grown by zero or one. -/
theorem moveScoreAll_scoreRel (ps : List Player) :
    ∀ (bs : List Ball) (o : Oracle), List.Forall₂ scoreRel ps (moveScoreAll ps bs o).1 := by
  induction ps with
  | nil => intro bs o; exact List.Forall₂.nil
  | cons p ps ih =>
    intro bs o
    refine List.Forall₂.cons ?_ (ih _ _)
    have hm := movePlayer_shape p
    rcases moveScoreOne_player_shape p bs o with h | h <;> rw [h]
    · exact ⟨hm.1, hm.2.1, Or.inl hm.2.2.2.2.1⟩
    · exact ⟨hm.1, hm.2.1, Or.inr (by simp [hm.2.2.2.2.1])⟩

/-- Ball-id tracking across the whole loop: every surviving ball id is
an original id or a consumed oracle id. -/
theorem moveScoreAll_ball_ids (ps : List Player) :
    ∀ (bs : List Ball) (o : Oracle), ∀ b' ∈ (moveScoreAll ps bs o).2.1,
      b'.id ∈ bs.map Ball.id ∨
      ∃ k, o.idIdx ≤ k ∧ k < (moveScoreAll ps bs o).2.2.idIdx ∧ b'.id = o.ids k := by
  induction ps with
  | nil => intro bs o b' hb'; exact Or.inl (List.mem_map_of_mem Ball.id hb')
  | cons p ps ih =>
    intro bs o b' hb'
    rw [moveScoreAll_cons_balls] at hb'
    rw [moveScoreAll_cons_oracle]
    have hstep := moveScoreOne_oracle p bs o
    have hrest := moveScoreAll_oracle ps (moveScoreOne p bs o).2.1 (moveScoreOne p bs o).2.2
    rcases ih (moveScoreOne p bs o).2.1 (moveScoreOne p bs o).2.2 b' hb' with
      hmem | ⟨k, hk1, hk2, hk3⟩
    · rcases List.mem_map.mp hmem with ⟨b0, hb0, hb0id⟩
      rcases moveScoreOne_ball_ids p bs o b0 hb0 with hm2 | ⟨hm2, hm2x⟩
      · exact Or.inl (hb0id ▸ hm2)
      · right
        refine ⟨o.idIdx, le_rfl, ?_, hb0id ▸ hm2⟩
        have hmono := hrest.2.2.1
        rw [hm2x] at hmono
        omega
    · right
      rw [hstep.1] at hk3
      exact ⟨k, le_trans hstep.2.2.1 hk1, hk2, hk3⟩

theorem findBall_mem {px py : ℝ} {bs : List Ball} {bid : ℕ}
    (h : findBall px py bs = some bid) :
    ∃ b ∈ bs, b.id = bid ∧ b.carriedBy = none := by
  induction bs with
  | nil => simp [findBall] at h
  | cons b rest ih =>
    simp only [findBall] at h
    split_ifs at h with h1 h2
    · obtain ⟨b0, hm, hp⟩ := ih h
      exact ⟨b0, List.mem_cons_of_mem b hm, hp⟩
    · simp only [Option.some.injEq] at h
      exact ⟨b, List.mem_cons_self b rest, h, not_ne_iff.mp h1⟩
    · obtain ⟨b0, hm, hp⟩ := ih h
      exact ⟨b0, List.mem_cons_of_mem b hm, hp⟩

theorem pickOne_shape (p : Player) (bs : List Ball) :
    (p.carryingBallId ≠ none ∧ pickOne p bs = (p, bs)) ∨
    (p.carryingBallId = none ∧ findBall p.x p.y bs = none ∧ pickOne p bs = (p, bs)) ∨
    (∃ bid, p.carryingBallId = none ∧ findBall p.x p.y bs = some bid ∧
      pickOne p bs =
        ({ p with carryingBallId := some bid }, ballsSetCarrier bs bid (some p.id))) := by
  unfold pickOne
  cases hc : p.carryingBallId with
  | some b0 => exact Or.inl ⟨by simp, rfl⟩
  | none =>
    cases hf : findBall p.x p.y bs with
    | none => exact Or.inr (Or.inl ⟨rfl, rfl, rfl⟩)
    | some bid => exact Or.inr (Or.inr ⟨bid, rfl, rfl, rfl⟩)

theorem pickOne_player_static (p : Player) (bs : List Ball) :
    (pickOne p bs).1.id = p.id ∧ (pickOne p bs).1.team = p.team ∧
    (pickOne p bs).1.score = p.score ∧ (pickOne p bs).1.x = p.x ∧
    (pickOne p bs).1.y = p.y ∧ (pickOne p bs).1.dirX = p.dirX ∧
    (pickOne p bs).1.dirY = p.dirY := by
  unfold pickOne
  split
  · exact ⟨rfl, rfl, rfl, rfl, rfl, rfl, rfl⟩
  · split <;> exact ⟨rfl, rfl, rfl, rfl, rfl, rfl, rfl⟩

theorem pickOne_balls (p : Player) (bs : List Ball) :
    (pickOne p bs).2.map Ball.id = bs.map Ball.id ∧
    (pickOne p bs).2.map idPos = bs.map idPos ∧ (pickOne p bs).2.length = bs.length := by
  unfold pickOne
  split
  · exact ⟨rfl, rfl, rfl⟩
  · split
    · exact ballsSetCarrier_idPos ..
    · exact ⟨rfl, rfl, rfl⟩

theorem pickAll_cons_players (p : Player) (ps : List Player) (bs : List Ball) :
    (pickAll (p :: ps) bs).1 = (pickOne p bs).1 :: (pickAll ps (pickOne p bs).2).1 := rfl

theorem pickAll_cons_balls (p : Player) (ps : List Player) (bs : List Ball) :
    (pickAll (p :: ps) bs).2 = (pickAll ps (pickOne p bs).2).2 := rfl

theorem pickAll_balls (ps : List Player) :
    ∀ bs : List Ball, (pickAll ps bs).2.map Ball.id = bs.map Ball.id ∧
      (pickAll ps bs).2.map idPos = bs.map idPos ∧ (pickAll ps bs).2.length = bs.length := by
  induction ps with
  | nil => intro bs; exact ⟨rfl, rfl, rfl⟩
  | cons p ps ih =>
    intro bs
    have h1 := pickOne_balls p bs
    have h2 := ih (pickOne p bs).2
    rw [pickAll_cons_balls]
    exact ⟨h2.1.trans h1.1, h2.2.1.trans h1.2.1, h2.2.2.trans h1.2.2⟩

/-- The pickup loop leaves every non-carry player field unchanged, and
only changes a carry from none to a live ball id. -/
theorem pickAll_players_rel (ps : List Player) :
    ∀ bs : List Ball,
      List.Forall₂
        (fun p q => staticF q = staticF p ∧ q.x = p.x ∧ q.y = p.y ∧
          (q.carryingBallId = p.carryingBallId ∨
            ∃ bid, q.carryingBallId = some bid ∧ bid ∈ bs.map Ball.id))
        ps (pickAll ps bs).1 := by
  induction ps with
  | nil => intro bs; exact List.Forall₂.nil
  | cons p ps ih =>
    intro bs
    rw [pickAll_cons_players]
    refine List.Forall₂.cons ?_ ?_
    · have hs := pickOne_player_static p bs
      refine ⟨?_, hs.2.2.2.1, hs.2.2.2.2.1, ?_⟩
      · simp [staticF, hs.1, hs.2.1, hs.2.2.1, hs.2.2.2.2.2.1, hs.2.2.2.2.2.2]
      · rcases pickOne_shape p bs with ⟨_, he⟩ | ⟨_, _, he⟩ | ⟨bid, _, hf, he⟩
        · rw [he]; exact Or.inl rfl
        · rw [he]; exact Or.inl rfl
        · rw [he]
          right
          obtain ⟨b0, hb0, hb0id, _⟩ := findBall_mem hf
          exact ⟨bid, rfl, hb0id ▸ List.mem_map_of_mem Ball.id hb0⟩
    · have := ih (pickOne p bs).2
      refine List.Forall₂.imp ?_ this
      intro a b hab
      refine ⟨hab.1, hab.2.1, hab.2.2.1, ?_⟩
      rcases hab.2.2.2 with hc | ⟨bid, hc, hmem⟩
      · exact Or.inl hc
      · exact Or.inr ⟨bid, hc, (pickOne_balls p bs).1 ▸ hmem⟩

theorem dropBall_facts (p : Player) (bs : List Ball) :
    staticF (dropBall p bs).1 = staticF p ∧ (dropBall p bs).1.x = p.x ∧
    (dropBall p bs).1.y = p.y ∧
    ((dropBall p bs).1.carryingBallId = none ∨
      (dropBall p bs).1.carryingBallId = p.carryingBallId) ∧
    (dropBall p bs).2.map Ball.id = bs.map Ball.id ∧
    (dropBall p bs).2.map idPos = bs.map idPos ∧ (dropBall p bs).2.length = bs.length := by
  unfold dropBall
  split
  · exact ⟨rfl, rfl, rfl, Or.inl rfl, (ballsSetCarrier_idPos ..).1,
      (ballsSetCarrier_idPos ..).2.1, (ballsSetCarrier_idPos ..).2.2⟩
  · exact ⟨rfl, rfl, rfl, Or.inr rfl, rfl, rfl, rfl⟩

theorem collideDrop_facts (p1 p2 : Player) (x1 y1 x2 y2 : ℝ) (bs : List Ball) :
    staticF (dropBall { p1 with x := x1, y := y1 } bs).1 = staticF p1 ∧
    staticF (dropBall { p2 with x := x2, y := y2 }
        (dropBall { p1 with x := x1, y := y1 } bs).2).1 = staticF p2 ∧
    ((dropBall { p1 with x := x1, y := y1 } bs).1.carryingBallId = none ∨
      (dropBall { p1 with x := x1, y := y1 } bs).1.carryingBallId = p1.carryingBallId) ∧
    ((dropBall { p2 with x := x2, y := y2 }
        (dropBall { p1 with x := x1, y := y1 } bs).2).1.carryingBallId = none ∨
     (dropBall { p2 with x := x2, y := y2 }
        (dropBall { p1 with x := x1, y := y1 } bs).2).1.carryingBallId =
          p2.carryingBallId) ∧
    (dropBall { p2 with x := x2, y := y2 }
        (dropBall { p1 with x := x1, y := y1 } bs).2).2.map Ball.id = bs.map Ball.id ∧
    (dropBall { p2 with x := x2, y := y2 }
        (dropBall { p1 with x := x1, y := y1 } bs).2).2.map idPos = bs.map idPos ∧
    (dropBall { p2 with x := x2, y := y2 }
        (dropBall { p1 with x := x1, y := y1 } bs).2).2.length = bs.length := by
  have a := dropBall_facts { p1 with x := x1, y := y1 } bs
  have b := dropBall_facts { p2 with x := x2, y := y2 }
    (dropBall { p1 with x := x1, y := y1 } bs).2
  exact ⟨a.1, b.1, a.2.2.2.1, b.2.2.2.1, b.2.2.2.2.1.trans a.2.2.2.2.1,
    b.2.2.2.2.2.1.trans a.2.2.2.2.2.1, b.2.2.2.2.2.2.trans a.2.2.2.2.2.2⟩

theorem collidePair_facts (p1 p2 : Player) (bs : List Ball) :
    staticF (collidePair p1 p2 bs).1 = staticF p1 ∧
    staticF (collidePair p1 p2 bs).2.1 = staticF p2 ∧
    ((collidePair p1 p2 bs).1.carryingBallId = none ∨
      (collidePair p1 p2 bs).1.carryingBallId = p1.carryingBallId) ∧
    ((collidePair p1 p2 bs).2.1.carryingBallId = none ∨
      (collidePair p1 p2 bs).2.1.carryingBallId = p2.carryingBallId) ∧
    (collidePair p1 p2 bs).2.2.map Ball.id = bs.map Ball.id ∧
    (collidePair p1 p2 bs).2.2.map idPos = bs.map idPos ∧
    (collidePair p1 p2 bs).2.2.length = bs.length := by
  unfold collidePair
  dsimp only
  split
  · exact collideDrop_facts p1 p2 _ _ _ _ bs
  · exact ⟨rfl, rfl, Or.inr rfl, Or.inr rfl, rfl, rfl, rfl⟩

theorem collideFold_step (ps0 : List Player) (bs0 : List Ball)
    (acc : List Player × List Ball) (ij : ℕ × ℕ)
    (h1 : acc.1.map staticF = ps0.map staticF)
    (h2 : ∀ q ∈ acc.1,
      q.carryingBallId = none ∨ ∃ p ∈ ps0, q.carryingBallId = p.carryingBallId)
    (h3 : acc.2.map Ball.id = bs0.map Ball.id) (h4 : acc.2.map idPos = bs0.map idPos)
    (h5 : acc.2.length = bs0.length) :
    (collideFold acc ij).1.map staticF = ps0.map staticF ∧
    (∀ q ∈ (collideFold acc ij).1,
      q.carryingBallId = none ∨ ∃ p ∈ ps0, q.carryingBallId = p.carryingBallId) ∧
    (collideFold acc ij).2.map Ball.id = bs0.map Ball.id ∧
    (collideFold acc ij).2.map idPos = bs0.map idPos ∧
    (collideFold acc ij).2.length = bs0.length := by
  unfold collideFold
  cases hg1 : acc.1.get? ij.1 with
  | none => exact ⟨h1, h2, h3, h4, h5⟩
  | some p1 =>
    cases hg2 : acc.1.get? ij.2 with
    | none => exact ⟨h1, h2, h3, h4, h5⟩
    | some p2 =>
      have hc := collidePair_facts p1 p2 acc.2
      have hp1mem : p1 ∈ acc.1 := by
        rw [List.get?_eq_getElem?] at hg1
        exact List.getElem?_mem hg1
      have hp2mem : p2 ∈ acc.1 := by
        rw [List.get?_eq_getElem?] at hg2
        exact List.getElem?_mem hg2
      have hi : (acc.1.map staticF)[ij.1]? = some (staticF p1) := by
        rw [List.getElem?_map, ← List.get?_eq_getElem?, hg1]
        rfl
      have hj : (acc.1.map staticF)[ij.2]? = some (staticF p2) := by
        rw [List.getElem?_map, ← List.get?_eq_getElem?, hg2]
        rfl
      refine ⟨?_, ?_, hc.2.2.2.2.1.trans h3, hc.2.2.2.2.2.1.trans h4,
        hc.2.2.2.2.2.2.trans h5⟩
      · dsimp only
        rw [List.map_set, List.map_set, hc.1, hc.2.1, setSelf hi, setSelf hj]
        exact h1
      · dsimp only
        intro q hq
        rcases List.mem_or_eq_of_mem_set hq with hq' | hq'
        · rcases List.mem_or_eq_of_mem_set hq' with hq'' | hq''
          · exact h2 q hq''
          · subst hq''
            rcases hc.2.2.1 with hnone | hsame
            · exact Or.inl hnone
            · rw [hsame]
              exact h2 p1 hp1mem
        · subst hq'
          rcases hc.2.2.2.1 with hnone | hsame
          · exact Or.inl hnone
          · rw [hsame]
            exact h2 p2 hp2mem

theorem collideFold_inv (ps0 : List Player) (bs0 : List Ball) (l : List (ℕ × ℕ)) :
    ∀ acc : List Player × List Ball,
      acc.1.map staticF = ps0.map staticF →
      (∀ q ∈ acc.1,
        q.carryingBallId = none ∨ ∃ p ∈ ps0, q.carryingBallId = p.carryingBallId) →
      acc.2.map Ball.id = bs0.map Ball.id → acc.2.map idPos = bs0.map idPos →
      acc.2.length = bs0.length →
      (l.foldl collideFold acc).1.map staticF = ps0.map staticF ∧
      (∀ q ∈ (l.foldl collideFold acc).1,
        q.carryingBallId = none ∨ ∃ p ∈ ps0, q.carryingBallId = p.carryingBallId) ∧
      (l.foldl collideFold acc).2.map Ball.id = bs0.map Ball.id ∧
      (l.foldl collideFold acc).2.map idPos = bs0.map idPos ∧
      (l.foldl collideFold acc).2.length = bs0.length := by
  induction l with
  | nil => intro acc h1 h2 h3 h4 h5; exact ⟨h1, h2, h3, h4, h5⟩
  | cons ij l ih =>
    intro acc h1 h2 h3 h4 h5
    rw [List.foldl_cons]
    have hs := collideFold_step ps0 bs0 acc ij h1 h2 h3 h4 h5
    exact ih (collideFold acc ij) hs.1 hs.2.1 hs.2.2.1 hs.2.2.2.1 hs.2.2.2.2

/-- The collision loop preserves every non-positional, non-carry player
field, ball identities and positions, and the ball count; a carry is
only ever cleared, never created or moved. -/
theorem collideStep_facts (ps : List Player) (bs : List Ball) :
    (collideStep ps bs).1.map staticF = ps.map staticF ∧
    (∀ q ∈ (collideStep ps bs).1,
      q.carryingBallId = none ∨ ∃ p ∈ ps, q.carryingBallId = p.carryingBallId) ∧
    (collideStep ps bs).2.map Ball.id = bs.map Ball.id ∧
    (collideStep ps bs).2.map idPos = bs.map idPos ∧
    (collideStep ps bs).2.length = bs.length := by
  unfold collideStep
  exact collideFold_inv ps bs (pairList ps.length) (ps, bs) rfl
    (fun q hq => Or.inr ⟨q, hq, rfl⟩) rfl rfl rfl

theorem forall2_map_eq {α β : Type} {R : α → α → Prop} {f : α → β}
    (hf : ∀ a b, R a b → f b = f a) :
    ∀ {l1 l2 : List α}, List.Forall₂ R l1 l2 → l2.map f = l1.map f := by
  intro l1 l2 h
  induction h with
  | nil => rfl
  | cons hab _ ih => simp [hf _ _ hab, ih]

theorem staticF_eq_fields {a b : Player} (h : staticF b = staticF a) :
    b.id = a.id ∧ b.team = a.team ∧ b.score = a.score ∧ b.dirX = a.dirX ∧
    b.dirY = a.dirY := by
  simp only [staticF, Prod.mk.injEq] at h
  exact ⟨h.1, h.2.1, h.2.2.1, h.2.2.2.1, h.2.2.2.2⟩

theorem update_players_def (s : GameState) :
    (update s).players =
      (collideStep
        (pickAll (moveScoreAll s.players s.balls s.oracle).1
          (moveScoreAll s.players s.balls s.oracle).2.1).1
        (pickAll (moveScoreAll s.players s.balls s.oracle).1
          (moveScoreAll s.players s.balls s.oracle).2.1).2).1 := rfl

theorem update_balls_def (s : GameState) :
    (update s).balls =
      (collideStep
        (pickAll (moveScoreAll s.players s.balls s.oracle).1
          (moveScoreAll s.players s.balls s.oracle).2.1).1
        (pickAll (moveScoreAll s.players s.balls s.oracle).1
          (moveScoreAll s.players s.balls s.oracle).2.1).2).2 := rfl

theorem update_oracle_def (s : GameState) :
    (update s).oracle = (moveScoreAll s.players s.balls s.oracle).2.2 := rfl

/-- Across one whole tick, each player keeps its identity and team and
gains either zero or exactly one point. -/
theorem update_scoreRel (s : GameState) :
    List.Forall₂ scoreRel s.players (update s).players := by
  rw [update_players_def]
  have h1 := moveScoreAll_scoreRel s.players s.balls s.oracle
  have h2 := pickAll_players_rel (moveScoreAll s.players s.balls s.oracle).1
    (moveScoreAll s.players s.balls s.oracle).2.1
  have h3 := forall2_of_map_eq
    (collideStep_facts
      (pickAll (moveScoreAll s.players s.balls s.oracle).1
        (moveScoreAll s.players s.balls s.oracle).2.1).1
      (pickAll (moveScoreAll s.players s.balls s.oracle).1
        (moveScoreAll s.players s.balls s.oracle).2.1).2).1.symm
  have h12 := forall2_chain
    (T := scoreRel)
    (fun a b c hab hbc => by
      obtain ⟨hid, hteam, hsc⟩ := hab
      obtain ⟨hs, _, _, _⟩ := hbc
      obtain ⟨hid2, hteam2, hsc2, _, _⟩ := staticF_eq_fields hs
      exact ⟨hid2.trans hid, hteam2.trans hteam,
        by rcases hsc with h | h
           · exact Or.inl (hsc2.trans h)
           · exact Or.inr (hsc2.trans h)⟩)
    h1 h2
  exact forall2_chain
    (T := scoreRel)
    (fun a b c hab hbc => by
      obtain ⟨hid, hteam, hsc⟩ := hab
      obtain ⟨hid2, hteam2, hsc2, _, _⟩ := staticF_eq_fields hbc
      exact ⟨hid2.trans hid, hteam2.trans hteam,
        by rcases hsc with h | h
           · exact Or.inl (hsc2.trans h)
           · exact Or.inr (hsc2.trans h)⟩)
    h12 h3

theorem initBalls_facts (n : ℕ) :
    ∀ o : Oracle, (initBalls n o).1.length = n ∧
      (initBalls n o).2.ids = o.ids ∧ (initBalls n o).2.idIdx = o.idIdx + n ∧
      (initBalls n o).2.rand = o.rand ∧
      ∀ b ∈ (initBalls n o).1, ∃ k, o.idIdx ≤ k ∧ k < o.idIdx + n ∧ b.id = o.ids k := by
  induction n with
  | zero =>
    intro o
    exact ⟨rfl, rfl, (Nat.add_zero _).symm, rfl,
      fun b hb => absurd hb (List.not_mem_nil b)⟩
  | succ n ih =>
    intro o
    have h := ih (createBall o).2
    have hcons : initBalls (n + 1) o =
        ((createBall o).1 :: (initBalls n (createBall o).2).1,
          (initBalls n (createBall o).2).2) := rfl
    rw [hcons]
    have hoid : (createBall o).2.idIdx = o.idIdx + 1 := rfl
    refine ⟨by simp [h.1], h.2.1, by rw [h.2.2.1, hoid]; omega, h.2.2.2.1, ?_⟩
    intro b hb
    rcases List.mem_cons.mp hb with rfl | hb
    · exact ⟨o.idIdx, le_rfl, by omega, rfl⟩
    · obtain ⟨k, hk1, hk2, hk3⟩ := h.2.2.2.2 b hb
      rw [hoid] at hk1 hk2
      exact ⟨k, by omega, by omega, hk3⟩

theorem initState_balls (rand : ℕ → ℝ) (ids : ℕ → ℕ) :
    (initState rand ids).balls.length = BALL_COUNT ∧
    (Function.Injective ids → BallsFresh (initState rand ids).balls
      (initState rand ids).oracle) := by
  have h := initBalls_facts BALL_COUNT ⟨rand, 0, ids, 0⟩
  refine ⟨h.1, fun hinj => ⟨?_, ?_⟩⟩
  · rw [show (initState rand ids).oracle.ids = ids from h.2.1]
    exact hinj
  intro n hn b hb
  have hio : (initState rand ids).oracle = (initBalls BALL_COUNT ⟨rand, 0, ids, 0⟩).2 := rfl
  have hib : (initState rand ids).balls = (initBalls BALL_COUNT ⟨rand, 0, ids, 0⟩).1 := rfl
  have h0 : ({ rand := rand, rIdx := 0, ids := ids, idIdx := 0 } : Oracle).idIdx = 0 := rfl
  rw [hib] at hb
  rw [hio, h.2.2.1, h0] at hn
  obtain ⟨k, hk1, hk2, hk3⟩ := h.2.2.2.2 b hb
  rw [h0] at hk2
  rw [hio, h.2.1, hk3]
  intro hcontra
  have hkn : k = n := hinj hcontra
  omega

/-- One event preserves the ball count and the ball-id freshness of the
oracle. -/
theorem applyEvent_pool (s : GameState) (e : Event)
    (h : BallsFresh s.balls s.oracle) :
    BallsFresh (applyEvent s e).balls (applyEvent s e).oracle ∧
    (applyEvent s e).balls.length = s.balls.length := by
  cases e with
  | tick =>
    show BallsFresh (update s).balls (update s).oracle ∧
      (update s).balls.length = s.balls.length
    have hms := @moveScoreAll_fresh_len s.players s.balls s.oracle h
    have hpk := pickAll_balls (moveScoreAll s.players s.balls s.oracle).1
      (moveScoreAll s.players s.balls s.oracle).2.1
    have hcs := collideStep_facts
      (pickAll (moveScoreAll s.players s.balls s.oracle).1
        (moveScoreAll s.players s.balls s.oracle).2.1).1
      (pickAll (moveScoreAll s.players s.balls s.oracle).1
        (moveScoreAll s.players s.balls s.oracle).2.1).2
    refine ⟨⟨?_, ?_⟩, ?_⟩
    · rw [update_oracle_def]
      exact hms.1.1
    · intro n hn b hb
      rw [update_oracle_def] at hn ⊢
      rw [update_balls_def] at hb
      have hbid : b.id ∈ (moveScoreAll s.players s.balls s.oracle).2.1.map Ball.id := by
        rw [← hpk.1, ← hcs.2.2.1]
        exact List.mem_map_of_mem Ball.id hb
      obtain ⟨b0, hb0, hb0id⟩ := List.mem_map.mp hbid
      rw [← hb0id]
      exact hms.1.2 n hn b0 hb0
    · rw [update_balls_def]
      rw [hcs.2.2.2.2, hpk.2.2, hms.2]
  | connect =>
    refine ⟨⟨h.1, ?_⟩, rfl⟩
    intro n hn b hb
    have hn2 : s.oracle.idIdx ≤ n := by
      have : (applyEvent s Event.connect).oracle.idIdx = s.oracle.idIdx + 1 := rfl
      omega
    exact h.2 n hn2 b hb
  | disconnect pid => exact ⟨h, rfl⟩
  | input pid x y => exact ⟨h, rfl⟩

theorem run_pool (es : List Event) :
    ∀ s : GameState, BallsFresh s.balls s.oracle →
      (run s es).balls.length = s.balls.length ∧
      BallsFresh (run s es).balls (run s es).oracle := by
  induction es with
  | nil => intro s h; exact ⟨rfl, h⟩
  | cons e es ih =>
    intro s h
    have hstep := applyEvent_pool s e h
    have hrest := ih (applyEvent s e) hstep.1
    exact ⟨hrest.1.trans hstep.2, hrest.2⟩

/-- Claim C7: the live-ball count equals the configured pool size
BALL_COUNT right after startup and after every subsequent event of the
server's lifetime (ticks — including scoring, which deletes one ball
and inserts one replacement — connections, disconnections, inputs),
provided the uuid oracle never repeats an id. -/
theorem C7_ball_pool_constant (rand : ℕ → ℝ) (ids : ℕ → ℕ)
    (hinj : Function.Injective ids) (es : List Event) :
    (initState rand ids).balls.length = BALL_COUNT ∧
    (run (initState rand ids) es).balls.length = BALL_COUNT := by
  have h0 := initState_balls rand ids
  have h1 := run_pool es (initState rand ids) (h0.2 hinj)
  exact ⟨h0.1, h1.1.trans h0.1⟩

/-- Witness for C7 at a concrete oracle and a two-event run. -/
theorem C7_ball_pool_constant_witness :
    (initState (fun _ => 0) (fun n => n)).balls.length = BALL_COUNT ∧
    (run (initState (fun _ => 0) (fun n => n)) [Event.connect, Event.tick]).balls.length
      = BALL_COUNT :=
  C7_ball_pool_constant (fun _ => 0) (fun n => n) (fun _ _ hab => hab)
    [Event.connect, Event.tick]

theorem forall2_mem_right {α : Type} {R : α → α → Prop} :
    ∀ {l l' : List α}, List.Forall₂ R l l' → ∀ q ∈ l', ∃ p ∈ l, R p q := by
  intro l l' h
  induction h with
  | nil => intro q hq; exact absurd hq (List.not_mem_nil q)
  | cons hab htl ih =>
    intro q hq
    rcases List.mem_cons.mp hq with rfl | hq'
    · exact ⟨_, List.mem_cons_self .., hab⟩
    · obtain ⟨p, hp, hR⟩ := ih q hq'
      exact ⟨p, List.mem_cons_of_mem _ hp, hR⟩

theorem playersInsert_sub {ps : List Player} {p : Player} :
    ∀ q ∈ playersInsert ps p, q = p ∨ q ∈ ps := by
  intro q hq
  unfold playersInsert at hq
  split at hq
  · obtain ⟨x, hx, hxe⟩ := List.mem_map.mp hq
    by_cases h : x.id = p.id
    · rw [if_pos h] at hxe
      exact Or.inl hxe.symm
    · rw [if_neg h] at hxe
      subst hxe
      exact Or.inr hx
  · rcases List.mem_append.mp hq with hmem | hmem
    · exact Or.inr hmem
    · exact Or.inl (List.mem_singleton.mp hmem)

/-- One event can only raise the scores of the players bearing a given
id, as long as the id oracle cannot mint that id again. -/
theorem applyEvent_score_inv (s : GameState) (e : Event) (pid sc : ℕ)
    (hseed : ∀ q ∈ s.players, q.id = pid → sc ≤ q.score)
    (hfresh : ∀ n, s.oracle.idIdx ≤ n → s.oracle.ids n ≠ pid) :
    (∀ q ∈ (applyEvent s e).players, q.id = pid → sc ≤ q.score) ∧
    (∀ n, (applyEvent s e).oracle.idIdx ≤ n → (applyEvent s e).oracle.ids n ≠ pid) := by
  cases e with
  | tick =>
    constructor
    · intro q hq hqid
      obtain ⟨p, hp, hR⟩ := forall2_mem_right (update_scoreRel s) q hq
      have hple : sc ≤ p.score := hseed p hp (hR.1.symm.trans hqid)
      rcases hR.2.2 with h | h <;> omega
    · intro n hn
      rw [show applyEvent s Event.tick = update s from rfl] at hn ⊢
      rw [update_oracle_def] at hn ⊢
      have ho := moveScoreAll_oracle s.players s.balls s.oracle
      rw [ho.1]
      exact hfresh n (le_trans ho.2.2.1 hn)
  | connect =>
    constructor
    · intro q hq hqid
      rcases playersInsert_sub q hq with rfl | hq'
      · exact absurd hqid (hfresh s.oracle.idIdx le_rfl)
      · exact hseed q hq' hqid
    · intro n hn
      have hidx : (applyEvent s Event.connect).oracle.idIdx = s.oracle.idIdx + 1 := rfl
      rw [hidx] at hn
      exact hfresh n (by omega)
  | disconnect pid2 =>
    exact ⟨fun q hq hqid => hseed q ((List.eraseP_sublist s.players).subset hq) hqid,
      hfresh⟩
  | input pid2 x y =>
    refine ⟨?_, hfresh⟩
    intro q hq hqid
    obtain ⟨q0, hq0, hq0e⟩ := List.mem_map.mp hq
    by_cases h : q0.id = pid2
    · rw [if_pos h] at hq0e
      subst hq0e
      exact hseed q0 hq0 hqid
    · rw [if_neg h] at hq0e
      subst hq0e
      exact hseed q0 hq0 hqid

theorem run_score_inv (es : List Event) :
    ∀ (s : GameState) (pid sc : ℕ),
      (∀ q ∈ s.players, q.id = pid → sc ≤ q.score) →
      (∀ n, s.oracle.idIdx ≤ n → s.oracle.ids n ≠ pid) →
      ∀ q ∈ (run s es).players, q.id = pid → sc ≤ q.score := by
  induction es with
  | nil => intro s pid sc hseed _ q hq hqid; exact hseed q hq hqid
  | cons e es ih =>
    intro s pid sc hseed hfresh
    have hstep := applyEvent_score_inv s e pid sc hseed hfresh
    exact ih (applyEvent s e) pid sc hstep.1 hstep.2

/-- Claim C10: a player's score starts at zero when the player is
created, is a natural number (hence non-negative) by type, changes by
at most one per tick — exactly the scoring increment — and any lower
bound on the scores of the players bearing a given id persists over the
rest of the server's lifetime, as long as the uuid oracle cannot mint
that id again. -/
theorem C10_score_monotone :
    (∀ (id : ℕ) (team : Team), (createPlayer id team).score = 0) ∧
    (∀ s : GameState, List.Forall₂ scoreRel s.players (update s).players) ∧
    (∀ (s : GameState) (es : List Event) (pid sc : ℕ),
      (∀ q ∈ s.players, q.id = pid → sc ≤ q.score) →
      (∀ n, s.oracle.idIdx ≤ n → s.oracle.ids n ≠ pid) →
      ∀ q ∈ (run s es).players, q.id = pid → sc ≤ q.score) :=
  ⟨fun _ _ => rfl, update_scoreRel,
    fun s es pid sc hseed hfresh => run_score_inv es s pid sc hseed hfresh⟩

/-- Witness for C10 at the concrete demo state over one tick. -/
theorem C10_score_monotone_witness :
    (createPlayer 7 Team.right).score = 0 ∧
    List.Forall₂ scoreRel demoState.players (update demoState).players ∧
    (∀ q ∈ (run demoState [Event.tick]).players, q.id = 1 → 0 ≤ q.score) :=
  ⟨C10_score_monotone.1 7 Team.right, C10_score_monotone.2.1 demoState,
    C10_score_monotone.2.2 demoState [Event.tick] 1 0
      (fun q _ _ => Nat.zero_le q.score)
      (fun n _ => by show 100 + n ≠ 1; omega)⟩

theorem clampR_le {lo hi : ℝ} (h : lo ≤ hi) (v : ℝ) :
    lo ≤ clampR lo hi v ∧ clampR lo hi v ≤ hi :=
  ⟨le_max_left lo _, max_le h (min_le_left hi v)⟩

theorem moveScoreOne_pos (p : Player) (bs : List Ball) (o : Oracle) :
    (moveScoreOne p bs o).1.x = (movePlayer p).x ∧
    (moveScoreOne p bs o).1.y = (movePlayer p).y := by
  rcases moveScoreOne_player_shape p bs o with h | h <;> rw [h] <;> exact ⟨rfl, rfl⟩

theorem movePlayer_bounds (p : Player) (h : p.dirX ≠ 0 ∨ p.dirY ≠ 0) :
    InsetBounds (movePlayer p).x (movePlayer p).y := by
  unfold movePlayer
  rw [if_pos h]
  have hxle : -(WORLD_WIDTH / 2) + PLAYER_RADIUS ≤ WORLD_WIDTH / 2 - PLAYER_RADIUS := by
    norm_num [WORLD_WIDTH, PLAYER_RADIUS]
  have hyle : -(WORLD_HEIGHT / 2) + PLAYER_RADIUS ≤ WORLD_HEIGHT / 2 - PLAYER_RADIUS := by
    norm_num [WORLD_HEIGHT, PLAYER_RADIUS]
  exact ⟨(clampR_le hxle _).1, (clampR_le hxle _).2, (clampR_le hyle _).1,
    (clampR_le hyle _).2⟩

theorem movePlayer_zero (p : Player) (h : p.dirX = 0 ∧ p.dirY = 0) :
    movePlayer p = p := by
  unfold movePlayer
  rw [if_neg (by simp [h.1, h.2])]

/-- Claim C4, amended: the clamp of the movement step does keep every
player that moved this tick inside the inset rectangle, and a player
with zero input direction keeps its previous coordinates; but the claim
fails for the whole tick because the later collision separation is not
clamped (see the counterexample). -/
theorem C4_movement_clamp (p : Player) (bs : List Ball) (o : Oracle) :
    ((moveScoreOne p bs o).1.x = (movePlayer p).x ∧
      (moveScoreOne p bs o).1.y = (movePlayer p).y) ∧
    ((p.dirX ≠ 0 ∨ p.dirY ≠ 0) → InsetBounds (movePlayer p).x (movePlayer p).y) ∧
    (p.dirX = 0 ∧ p.dirY = 0 → movePlayer p = p) :=
  ⟨moveScoreOne_pos p bs o, movePlayer_bounds p, movePlayer_zero p⟩

/-- Witness for C4_movement_clamp at a concrete moving player. -/
theorem C4_movement_clamp_witness :
    InsetBounds (movePlayer ⟨1, Team.left, -360, 0, 1, 0, 0, none⟩).x
      (movePlayer ⟨1, Team.left, -360, 0, 1, 0, 0, none⟩).y ∧
    movePlayer ⟨2, Team.left, -360, 0, 0, 0, 0, none⟩ =
      ⟨2, Team.left, -360, 0, 0, 0, 0, none⟩ :=
  ⟨(C4_movement_clamp ⟨1, Team.left, -360, 0, 1, 0, 0, none⟩ [] ⟨fun _ => 0, 0, fun n => n, 0⟩).2.1
      (Or.inl (by norm_num)),
   (C4_movement_clamp ⟨2, Team.left, -360, 0, 0, 0, 0, none⟩ [] ⟨fun _ => 0, 0, fun n => n, 0⟩).2.2
      ⟨rfl, rfl⟩⟩

theorem sqrt64 : Real.sqrt ((395 - 387 : ℝ) * (395 - 387) + (0 - 0) * (0 - 0)) = 8 := by
  rw [show ((395 - 387 : ℝ) * (395 - 387) + (0 - 0) * (0 - 0)) = 8 ^ 2 by norm_num]
  exact Real.sqrt_sq (by norm_num)

theorem sqrt36 : Real.sqrt (collisionDist2 - dist2 395 0 387 0) = 6 := by
  rw [show (collisionDist2 - dist2 (395 : ℝ) 0 387 0) = 6 ^ 2 by
    norm_num [collisionDist2, dist2, PLAYER_RADIUS]]
  exact Real.sqrt_sq (by norm_num)

theorem wallState_collidePair :
    collidePair ⟨1, Team.right, 395, 0, 0, 0, 0, none⟩
      ⟨2, Team.right, 387, 0, 0, 0, 0, none⟩
      [⟨10, -200, 200, none⟩, ⟨11, -100, 200, none⟩, ⟨12, 0, 200, none⟩,
        ⟨13, 100, 200, none⟩, ⟨14, 200, 200, none⟩] =
      (⟨1, Team.right, 398, 0, 0, 0, 0, none⟩, ⟨2, Team.right, 384, 0, 0, 0, 0, none⟩,
        [⟨10, -200, 200, none⟩, ⟨11, -100, 200, none⟩, ⟨12, 0, 200, none⟩,
          ⟨13, 100, 200, none⟩, ⟨14, 200, 200, none⟩]) := by
  unfold collidePair
  rw [if_pos (by norm_num [dist2, collisionDist2, PLAYER_RADIUS] :
    dist2 (Player.mk 1 Team.right 395 0 0 0 0 none).x
      (Player.mk 1 Team.right 395 0 0 0 0 none).y
      (Player.mk 2 Team.right 387 0 0 0 0 none).x
      (Player.mk 2 Team.right 387 0 0 0 0 none).y < collisionDist2)]
  dsimp only
  rw [sqrt64, if_neg (by norm_num : ¬ (8 : ℝ) = 0), sqrt36]
  unfold dropBall
  dsimp only
  norm_num

theorem wallState_tick_players :
    (applyEvent wallState Event.tick).players =
      [⟨1, Team.right, 398, 0, 0, 0, 0, none⟩, ⟨2, Team.right, 384, 0, 0, 0, 0, none⟩] := by
  have hms : moveScoreAll wallState.players wallState.balls wallState.oracle =
      (wallState.players, wallState.balls, wallState.oracle) := by
    norm_num [wallState, moveScoreAll, moveScoreOne, movePlayer, followBall]
  have hpk : pickAll wallState.players wallState.balls =
      (wallState.players, wallState.balls) := by
    norm_num [wallState, pickAll, pickOne, findBall, dist2, PLAYER_RADIUS, BALL_RADIUS]
  have hcol : collideStep wallState.players wallState.balls =
      ([⟨1, Team.right, 398, 0, 0, 0, 0, none⟩, ⟨2, Team.right, 384, 0, 0, 0, 0, none⟩],
        wallState.balls) := by
    unfold collideStep
    rw [show wallState.players.length = 2 from rfl,
      show pairList 2 = [(0, 1)] by decide, List.foldl_cons, List.foldl_nil]
    unfold collideFold
    dsimp only [wallState]
    simp only [List.get?]
    rw [wallState_collidePair]
    rfl
  rw [show applyEvent wallState Event.tick = update wallState from rfl, update_players_def,
    hms]
  dsimp only
  rw [hpk]
  dsimp only
  rw [hcol]

/-- Claim C4, refuted as stated: after a full tick on wallState — two
stationary players overlapping near the right wall — the collision
separation pushes player 1 to x = 398, outside the inset rectangle
(whose right edge is W/2 - r = 395); the movement clamp does not run
again after separation. -/
theorem C4_counterexample :
    ∃ q ∈ (applyEvent wallState Event.tick).players, ¬ InsetBounds q.x q.y := by
  refine ⟨⟨1, Team.right, 398, 0, 0, 0, 0, none⟩, ?_, ?_⟩
  · rw [wallState_tick_players]
    exact List.mem_cons_self ..
  · norm_num [InsetBounds, WORLD_WIDTH, WORLD_HEIGHT, PLAYER_RADIUS]

theorem dropBall_x (p : Player) (bs : List Ball) : (dropBall p bs).1.x = p.x := by
  unfold dropBall
  split <;> rfl

theorem dropBall_y (p : Player) (bs : List Ball) : (dropBall p bs).1.y = p.y := by
  unfold dropBall
  split <;> rfl

theorem dropBall_clears (p : Player) (bs : List Ball) :
    (dropBall p bs).1.carryingBallId = none := by
  unfold dropBall
  cases h : p.carryingBallId with
  | some bid => rfl
  | none => exact h

theorem ballsSetCarrier_self {bs : List Ball} {i : ℕ} {c : Option ℕ} :
    ∀ b ∈ ballsSetCarrier bs i c, b.id = i → b.carriedBy = c := by
  intro b hb hbi
  obtain ⟨x, hx, hxe⟩ := List.mem_map.mp hb
  by_cases h : x.id = i
  · rw [if_pos h] at hxe
    subst hxe
    rfl
  · rw [if_neg h] at hxe
    subst hxe
    exact absurd hbi h

theorem ballsSetCarrier_none_mono {bs : List Ball} {i j : ℕ}
    (hj : ∀ x ∈ bs, x.id = j → x.carriedBy = none) :
    ∀ b ∈ ballsSetCarrier bs i none, b.id = j → b.carriedBy = none := by
  intro b hb hbj
  obtain ⟨x, hx, hxe⟩ := List.mem_map.mp hb
  by_cases h : x.id = i
  · rw [if_pos h] at hxe
    subst hxe
    rfl
  · rw [if_neg h] at hxe
    subst hxe
    exact hj x hx hbj

theorem dropBall_ball_side (p : Player) (bs : List Ball) {bid : ℕ}
    (hp : p.carryingBallId = some bid) :
    ∀ b ∈ (dropBall p bs).2, b.id = bid → b.carriedBy = none := by
  unfold dropBall
  rw [hp]
  exact fun b hb hbid => ballsSetCarrier_self b hb hbid

theorem dropBall_ball_mono (p : Player) (bs : List Ball) {j : ℕ}
    (hj : ∀ x ∈ bs, x.id = j → x.carriedBy = none) :
    ∀ b ∈ (dropBall p bs).2, b.id = j → b.carriedBy = none := by
  unfold dropBall
  cases h : p.carryingBallId with
  | some bid => exact fun b hb hbj => ballsSetCarrier_none_mono hj b hb hbj
  | none => exact hj

/-- On a two-player state the collision loop visits exactly the pair
(0, 1). -/
theorem collideStep_two (p1 p2 : Player) (bs : List Ball) :
    collideStep [p1, p2] bs =
      ([(collidePair p1 p2 bs).1, (collidePair p1 p2 bs).2.1],
        (collidePair p1 p2 bs).2.2) := by
  unfold collideStep
  rw [show ([p1, p2] : List Player).length = 2 from rfl,
    show pairList 2 = [(0, 1)] by decide, List.foldl_cons, List.foldl_nil]
  unfold collideFold
  simp only [List.get?]
  rfl

theorem collidePair_pos_sep (p1 p2 : Player) (bs : List Ball)
    (hd : 0 < dist2 p1.x p1.y p2.x p2.y)
    (hlt : dist2 p1.x p1.y p2.x p2.y < collisionDist2) :
    Real.sqrt (dist2 (collidePair p1 p2 bs).1.x (collidePair p1 p2 bs).1.y
        (collidePair p1 p2 bs).2.1.x (collidePair p1 p2 bs).2.1.y) =
      Real.sqrt (dist2 p1.x p1.y p2.x p2.y) +
        Real.sqrt (collisionDist2 - dist2 p1.x p1.y p2.x p2.y) := by
  unfold collidePair
  rw [if_pos hlt]
  dsimp only
  rw [dropBall_x, dropBall_y, dropBall_x, dropBall_y]
  dsimp only
  rw [show (p1.x - p2.x) * (p1.x - p2.x) + (p1.y - p2.y) * (p1.y - p2.y) =
    dist2 p1.x p1.y p2.x p2.y from rfl]
  rw [if_neg (ne_of_gt (Real.sqrt_pos.mpr hd))]
  set a := Real.sqrt (dist2 p1.x p1.y p2.x p2.y) with ha
  set b := Real.sqrt (collisionDist2 - dist2 p1.x p1.y p2.x p2.y) with hb
  have hapos : 0 < a := Real.sqrt_pos.mpr hd
  have hbnn : 0 ≤ b := Real.sqrt_nonneg _
  have ha2 : a ^ 2 = dist2 p1.x p1.y p2.x p2.y := Real.sq_sqrt (le_of_lt hd)
  have hkey : dist2 (p1.x + (p1.x - p2.x) / a * (b / 2))
      (p1.y + (p1.y - p2.y) / a * (b / 2)) (p2.x - (p1.x - p2.x) / a * (b / 2))
      (p2.y - (p1.y - p2.y) / a * (b / 2)) = (a + b) ^ 2 := by
    have hane : a ≠ 0 := ne_of_gt hapos
    unfold dist2 at ha2 ⊢
    field_simp
    ring_nf
    ring_nf at ha2
    linear_combination (-(4 : ℝ)) * (a + b) ^ 2 * ha2
  rw [hkey, Real.sqrt_sq (by positivity)]

theorem collidePair_degenerate (p1 p2 : Player) (bs : List Ball)
    (h0 : dist2 p1.x p1.y p2.x p2.y = 0)
    (hlt : dist2 p1.x p1.y p2.x p2.y < collisionDist2) :
    (collidePair p1 p2 bs).1.x = p1.x ∧ (collidePair p1 p2 bs).1.y = p1.y ∧
    (collidePair p1 p2 bs).2.1.x = p2.x ∧ (collidePair p1 p2 bs).2.1.y = p2.y := by
  have h := h0
  unfold dist2 at h
  have hdx : p1.x - p2.x = 0 := by
    apply mul_self_eq_zero.mp
    nlinarith [mul_self_nonneg (p1.x - p2.x), mul_self_nonneg (p1.y - p2.y)]
  have hdy : p1.y - p2.y = 0 := by
    apply mul_self_eq_zero.mp
    nlinarith [mul_self_nonneg (p1.x - p2.x), mul_self_nonneg (p1.y - p2.y)]
  unfold collidePair
  rw [if_pos hlt]
  dsimp only
  rw [dropBall_x, dropBall_y, dropBall_x, dropBall_y]
  dsimp only
  rw [hdx, hdy]
  norm_num

theorem dropBall_two_ball_side (q1 q2 : Player) (bs : List Ball) (bid : ℕ)
    (h : q1.carryingBallId = some bid ∨ q2.carryingBallId = some bid) :
    ∀ b ∈ (dropBall q2 (dropBall q1 bs).2).2, b.id = bid → b.carriedBy = none := by
  rcases h with hp | hp
  · exact dropBall_ball_mono _ _ (dropBall_ball_side _ bs hp)
  · exact dropBall_ball_side _ _ hp

theorem collidePair_drops (p1 p2 : Player) (bs : List Ball)
    (hlt : dist2 p1.x p1.y p2.x p2.y < collisionDist2) :
    (collidePair p1 p2 bs).1.carryingBallId = none ∧
    (collidePair p1 p2 bs).2.1.carryingBallId = none ∧
    ∀ bid, (p1.carryingBallId = some bid ∨ p2.carryingBallId = some bid) →
      ∀ b ∈ (collidePair p1 p2 bs).2.2, b.id = bid → b.carriedBy = none := by
  unfold collidePair
  rw [if_pos hlt]
  dsimp only
  refine ⟨dropBall_clears .., dropBall_clears .., ?_⟩
  intro bid hbid b hb hbid2
  refine dropBall_two_ball_side _ _ bs bid ?_ b hb hbid2
  exact hbid

/-- Claim C3, amended: when a pair of players overlaps (d² < (2r)²),
the loop displaces each by sqrt((2r)² − d²)/2 along the centre line, so
the post-separation distance is sqrt(d²) + sqrt((2r)² − d²) — strictly
GREATER than 2r for every actual collision with 0 < d², not equal to 2r
as claimed.  When the positions coincide, the || 0.0001 guard makes the
normalized direction zero and the players do not separate at all.  Both
players do drop any carried ball, with the carry cleared on the player
side and on the ball side. -/
theorem C3_collision_separation (p1 p2 : Player) (bs : List Ball)
    (hlt : dist2 p1.x p1.y p2.x p2.y < collisionDist2) :
    collideStep [p1, p2] bs =
      ([(collidePair p1 p2 bs).1, (collidePair p1 p2 bs).2.1],
        (collidePair p1 p2 bs).2.2) ∧
    (0 < dist2 p1.x p1.y p2.x p2.y →
      Real.sqrt (dist2 (collidePair p1 p2 bs).1.x (collidePair p1 p2 bs).1.y
          (collidePair p1 p2 bs).2.1.x (collidePair p1 p2 bs).2.1.y) =
        Real.sqrt (dist2 p1.x p1.y p2.x p2.y) +
          Real.sqrt (collisionDist2 - dist2 p1.x p1.y p2.x p2.y) ∧
      PLAYER_RADIUS * 2 <
        Real.sqrt (dist2 (collidePair p1 p2 bs).1.x (collidePair p1 p2 bs).1.y
          (collidePair p1 p2 bs).2.1.x (collidePair p1 p2 bs).2.1.y)) ∧
    (dist2 p1.x p1.y p2.x p2.y = 0 →
      (collidePair p1 p2 bs).1.x = p1.x ∧ (collidePair p1 p2 bs).1.y = p1.y ∧
      (collidePair p1 p2 bs).2.1.x = p2.x ∧ (collidePair p1 p2 bs).2.1.y = p2.y) ∧
    (collidePair p1 p2 bs).1.carryingBallId = none ∧
    (collidePair p1 p2 bs).2.1.carryingBallId = none ∧
    (∀ bid, (p1.carryingBallId = some bid ∨ p2.carryingBallId = some bid) →
      ∀ b ∈ (collidePair p1 p2 bs).2.2, b.id = bid → b.carriedBy = none) := by
  have hdrops := collidePair_drops p1 p2 bs hlt
  refine ⟨collideStep_two p1 p2 bs, ?_,
    fun h0 => collidePair_degenerate p1 p2 bs h0 hlt, hdrops.1, hdrops.2.1, hdrops.2.2⟩
  intro hd
  have heq := collidePair_pos_sep p1 p2 bs hd hlt
  refine ⟨heq, ?_⟩
  rw [heq]
  have hapos : 0 < Real.sqrt (dist2 p1.x p1.y p2.x p2.y) := Real.sqrt_pos.mpr hd
  have hbpos : 0 < Real.sqrt (collisionDist2 - dist2 p1.x p1.y p2.x p2.y) :=
    Real.sqrt_pos.mpr (by linarith)
  have ha2 : Real.sqrt (dist2 p1.x p1.y p2.x p2.y) ^ 2 = dist2 p1.x p1.y p2.x p2.y :=
    Real.sq_sqrt hd.le
  have hb2 : Real.sqrt (collisionDist2 - dist2 p1.x p1.y p2.x p2.y) ^ 2 =
      collisionDist2 - dist2 p1.x p1.y p2.x p2.y := Real.sq_sqrt (by linarith)
  have hcc : collisionDist2 = (PLAYER_RADIUS * 2) ^ 2 := rfl
  apply lt_of_pow_lt_pow_left₀ 2 (by positivity)
  nlinarith [mul_pos hapos hbpos]

/-- Claim C3, refuted as stated: in wallState the two players are at
distance 8 < 2r = 10; the tick separates them to positions x = 398 and
x = 384, at distance 14 ≠ 10 — the separation overshoots because the
source displaces by sqrt((2r)² − d²)/2 instead of (2r − d)/2. -/
theorem C3_counterexample :
    dist2 (395 : ℝ) 0 387 0 < collisionDist2 ∧
    (applyEvent wallState Event.tick).players =
      [⟨1, Team.right, 398, 0, 0, 0, 0, none⟩, ⟨2, Team.right, 384, 0, 0, 0, 0, none⟩] ∧
    Real.sqrt (dist2 (398 : ℝ) 0 384 0) ≠ PLAYER_RADIUS * 2 := by
  refine ⟨by norm_num [dist2, collisionDist2, PLAYER_RADIUS], wallState_tick_players, ?_⟩
  rw [show dist2 (398 : ℝ) 0 384 0 = 14 ^ 2 by norm_num [dist2],
    Real.sqrt_sq (by norm_num)]
  norm_num [PLAYER_RADIUS]

/-- Witness for C3_collision_separation at a concrete colliding pair. -/
theorem C3_collision_separation_witness :
    dist2 (8 : ℝ) 0 0 0 < collisionDist2 ∧
    (collidePair ⟨1, Team.left, 8, 0, 0, 0, 0, none⟩
      ⟨2, Team.right, 0, 0, 0, 0, 0, none⟩ []).1.carryingBallId = none :=
  ⟨by norm_num [dist2, collisionDist2, PLAYER_RADIUS],
   (C3_collision_separation ⟨1, Team.left, 8, 0, 0, 0, 0, none⟩
      ⟨2, Team.right, 0, 0, 0, 0, 0, none⟩ []
      (by norm_num [dist2, collisionDist2, PLAYER_RADIUS])).2.2.2.1⟩

theorem findBall_cons_carried {px py : ℝ} {b : Ball} {rest : List Ball}
    (hc : b.carriedBy ≠ none) :
    findBall px py (b :: rest) = findBall px py rest := by
  simp only [findBall, if_pos hc]

theorem findBall_cons_hit {px py : ℝ} {b : Ball} {rest : List Ball}
    (hc : b.carriedBy = none)
    (hdist : dist2 px py b.x b.y < (PLAYER_RADIUS + BALL_RADIUS) ^ 2) :
    findBall px py (b :: rest) = some b.id := by
  have hcnot : ¬ b.carriedBy ≠ none := by simp [hc]
  simp only [findBall, if_neg hcnot, if_pos hdist]

theorem findBall_cons_miss {px py : ℝ} {b : Ball} {rest : List Ball}
    (hc : b.carriedBy = none)
    (hdist : ¬ dist2 px py b.x b.y < (PLAYER_RADIUS + BALL_RADIUS) ^ 2) :
    findBall px py (b :: rest) = findBall px py rest := by
  have hcnot : ¬ b.carriedBy ≠ none := by simp [hc]
  simp only [findBall, if_neg hcnot, if_neg hdist]

theorem findBall_cons_skip {px py : ℝ} {b : Ball} {rest : List Ball}
    (hel : ¬ Eligible px py b) :
    findBall px py (b :: rest) = findBall px py rest := by
  by_cases hc : b.carriedBy = none
  · exact findBall_cons_miss hc (fun hd => hel ⟨hc, hd⟩)
  · exact findBall_cons_carried hc

/-- The inner pickup scan returns an id exactly when that id belongs to
the first ball of the list, in scan order, that is uncarried and
strictly within squared pickup range. -/
theorem findBall_iff (px py : ℝ) :
    ∀ (bs : List Ball) (bid : ℕ),
      findBall px py bs = some bid ↔ FirstEligible px py bs bid := by
  intro bs
  induction bs with
  | nil =>
    intro bid
    constructor
    · intro h; simp [findBall] at h
    · rintro ⟨pre, b, post, habs, -⟩
      exact absurd habs (List.append_ne_nil_of_right_ne_nil pre (by simp)).symm
  | cons b rest ih =>
    intro bid
    by_cases hel : Eligible px py b
    · rw [findBall_cons_hit hel.1 hel.2]
      constructor
      · intro h
        simp only [Option.some.injEq] at h
        exact ⟨[], b, rest, rfl, h, hel, fun b' hb' => absurd hb' (List.not_mem_nil b')⟩
      · rintro ⟨pre, b0, post, habs, hb0, hb0el, hpre⟩
        cases pre with
        | nil =>
          simp only [List.nil_append, List.cons.injEq] at habs
          rw [habs.1, hb0]
        | cons bp pre' =>
          simp only [List.cons_append, List.cons.injEq] at habs
          exact absurd (habs.1 ▸ hel) (hpre bp (List.mem_cons_self ..))
    · rw [findBall_cons_skip hel, ih bid]
      constructor
      · rintro ⟨pre, b0, post, habs, hb0, hb0el, hpre⟩
        exact ⟨b :: pre, b0, post, by rw [habs, List.cons_append], hb0, hb0el,
          fun b' hb' => by
            rcases List.mem_cons.mp hb' with rfl | hb'2
            · exact hel
            · exact hpre b' hb'2⟩
      · rintro ⟨pre, b0, post, habs, hb0, hb0el, hpre⟩
        cases pre with
        | nil =>
          simp only [List.nil_append, List.cons.injEq] at habs
          exact absurd (habs.1 ▸ hb0el) hel
        | cons bp pre' =>
          simp only [List.cons_append, List.cons.injEq] at habs
          exact ⟨pre', b0, post, habs.2, hb0, hb0el,
            fun b' hb' => hpre b' (List.mem_cons_of_mem bp hb')⟩

/-- The inner pickup scan comes back empty exactly when no ball of the
list is eligible. -/
theorem findBall_none_iff (px py : ℝ) :
    ∀ bs : List Ball, findBall px py bs = none ↔ ∀ b ∈ bs, ¬ Eligible px py b := by
  intro bs
  induction bs with
  | nil => simp [findBall]
  | cons b rest ih =>
    by_cases hel : Eligible px py b
    · rw [findBall_cons_hit hel.1 hel.2]
      simp only [false_iff, not_forall, reduceCtorEq]
      exact ⟨b, List.mem_cons_self .., not_not_intro hel⟩
    · rw [findBall_cons_skip hel, ih]
      constructor
      · intro h b' hb'
        rcases List.mem_cons.mp hb' with rfl | hb'2
        · exact hel
        · exact h b' hb'2
      · exact fun h b' hb' => h b' (List.mem_cons_of_mem b hb')

theorem pickAll_append (l1 : List Player) :
    ∀ (l2 : List Player) (bs : List Ball),
      pickAll (l1 ++ l2) bs =
        ((pickAll l1 bs).1 ++ (pickAll l2 (pickAll l1 bs).2).1,
          (pickAll l2 (pickAll l1 bs).2).2) := by
  induction l1 with
  | nil => intro l2 bs; rfl
  | cons p l1 ih =>
    intro l2 bs
    rw [List.cons_append]
    rw [show pickAll (p :: (l1 ++ l2)) bs =
      ((pickOne p bs).1 :: (pickAll (l1 ++ l2) (pickOne p bs).2).1,
        (pickAll (l1 ++ l2) (pickOne p bs).2).2) from rfl]
    rw [ih l2 (pickOne p bs).2]
    rfl

theorem pickAll_length (ps : List Player) (bs : List Ball) :
    (pickAll ps bs).1.length = ps.length :=
  ((pickAll_players_rel ps bs).length_eq).symm

/-- The i-th output of the pickup loop is the pickup of the i-th player
against the ball map as the scan reaches it. -/
theorem pickAll_getElem (ps : List Player) :
    ∀ (bs : List Ball) (i : ℕ) (p : Player), ps[i]? = some p →
      (pickAll ps bs).1[i]? = some (pickOne p (availAt ps bs i)).1 := by
  induction ps with
  | nil => intro bs i p h; simp at h
  | cons hd tl ih =>
    intro bs i p h
    rw [show pickAll (hd :: tl) bs =
      ((pickOne hd bs).1 :: (pickAll tl (pickOne hd bs).2).1,
        (pickAll tl (pickOne hd bs).2).2) from rfl]
    cases i with
    | zero =>
      simp only [List.getElem?_cons_zero, Option.some.injEq] at h
      subst h
      simp [availAt, pickAll]
    | succ i =>
      dsimp only
      simp only [List.getElem?_cons_succ] at h ⊢
      exact ih (pickOne hd bs).2 i p h

theorem availAt_zero (ps : List Player) (bs : List Ball) : availAt ps bs 0 = bs := rfl

/-- Advancing the scan past player i marks its acquisition in the ball
map. -/
theorem availAt_succ (ps : List Player) (bs : List Ball) (i : ℕ) (p : Player)
    (h : ps[i]? = some p) :
    availAt ps bs (i + 1) = (pickOne p (availAt ps bs i)).2 := by
  unfold availAt
  rw [List.take_succ, h]
  rw [pickAll_append]
  rfl

/-- Once every ball bearing an id is carried by q, the pickup loop never
changes that: a carried ball is skipped by every later scan. -/
theorem pickOne_preserves_carried {bid q : ℕ} (p : Player) (bs : List Ball)
    (h : ∀ b ∈ bs, b.id = bid → b.carriedBy = some q) :
    ∀ b ∈ (pickOne p bs).2, b.id = bid → b.carriedBy = some q := by
  rcases pickOne_shape p bs with ⟨_, he⟩ | ⟨_, _, he⟩ | ⟨bid2, _, hf, he⟩
  · rw [he]; exact h
  · rw [he]; exact h
  · rw [he]
    dsimp only
    intro b hb hbid
    obtain ⟨b0, hb0m, hb0id, hb0c⟩ := findBall_mem hf
    obtain ⟨x, hx, hxe⟩ := List.mem_map.mp hb
    by_cases hxi : x.id = bid2
    · exfalso
      have hbid2 : bid2 = bid := by
        rw [if_pos hxi] at hxe
        subst hxe
        rw [← hbid]
        exact hxi.symm
      have := h b0 hb0m (hb0id.trans hbid2)
      rw [hb0c] at this
      exact Option.noConfusion this
    · rw [if_neg hxi] at hxe
      subst hxe
      exact h x hx hbid

theorem pickAll_preserves_carried {bid q : ℕ} (ps : List Player) :
    ∀ bs : List Ball, (∀ b ∈ bs, b.id = bid → b.carriedBy = some q) →
      ∀ b ∈ (pickAll ps bs).2, b.id = bid → b.carriedBy = some q := by
  induction ps with
  | nil => intro bs h; exact h
  | cons p ps ih =>
    intro bs h
    rw [pickAll_cons_balls]
    exact ih (pickOne p bs).2 (pickOne_preserves_carried p bs h)

theorem availAt_ge (ps : List Player) (bs : List Ball) {i j : ℕ} (hij : i ≤ j) :
    availAt ps bs j = (pickAll ((ps.drop i).take (j - i)) (availAt ps bs i)).2 := by
  unfold availAt
  rw [show j = i + (j - i) by omega, List.take_add, pickAll_append]
  rw [show i + (j - i) - i = j - i by omega]

theorem pickAll_final_balls (ps : List Player) (bs : List Ball) (i : ℕ) :
    (pickAll ps bs).2 = (pickAll (ps.drop i) (availAt ps bs i)).2 := by
  conv =>
    lhs
    rw [← List.take_append_drop i ps]
  rw [pickAll_append]
  rfl

theorem pickAll_exclusive_aux (ps : List Player) (bs : List Ball) {i j : ℕ}
    {p q : Player} (hij : i < j) (hpi : ps[i]? = some p) (hqj : ps[j]? = some q)
    (hpc : p.carryingBallId = none) (hqc : q.carryingBallId = none)
    {p' q' : Player} {bid : ℕ}
    (hp' : (pickAll ps bs).1[i]? = some p') (hq' : (pickAll ps bs).1[j]? = some q')
    (hp'c : p'.carryingBallId = some bid) (hq'c : q'.carryingBallId = some bid) :
    False := by
  have hpe := pickAll_getElem ps bs i p hpi
  rw [hp'] at hpe
  have hp'eq : p' = (pickOne p (availAt ps bs i)).1 := by
    simpa using hpe
  rcases pickOne_shape p (availAt ps bs i) with ⟨hne, he⟩ | ⟨_, _, he⟩ |
    ⟨bid2, _, hf, he⟩
  · exact absurd hpc hne
  · rw [he] at hp'eq
    rw [hp'eq, hpc] at hp'c
    exact Option.noConfusion hp'c
  · have hbid2 : bid2 = bid := by
      rw [he] at hp'eq
      rw [hp'eq] at hp'c
      simpa using hp'c
    have hmark : ∀ b ∈ availAt ps bs (i + 1), b.id = bid → b.carriedBy = some p.id := by
      rw [availAt_succ ps bs i p hpi, he]
      dsimp only
      intro b hb hbid
      exact ballsSetCarrier_self b hb (by rw [hbid, hbid2])
    have hpers : ∀ b ∈ availAt ps bs j, b.id = bid → b.carriedBy = some p.id := by
      rw [availAt_ge ps bs (show i + 1 ≤ j by omega)]
      exact pickAll_preserves_carried _ _ hmark
    have hqe := pickAll_getElem ps bs j q hqj
    rw [hq'] at hqe
    have hq'eq : q' = (pickOne q (availAt ps bs j)).1 := by
      simpa using hqe
    rcases pickOne_shape q (availAt ps bs j) with ⟨hne2, he2⟩ | ⟨_, _, he2⟩ |
      ⟨bid3, _, hf2, he2⟩
    · exact absurd hqc hne2
    · rw [he2] at hq'eq
      rw [hq'eq, hqc] at hq'c
      exact Option.noConfusion hq'c
    · have hbid3 : bid3 = bid := by
        rw [he2] at hq'eq
        rw [hq'eq] at hq'c
        simpa using hq'c
      obtain ⟨b0, hb0, hb0id, hb0c⟩ := findBall_mem hf2
      have hcar := hpers b0 hb0 (hb0id.trans hbid3)
      rw [hb0c] at hcar
      exact Option.noConfusion hcar

/-- Claim C6: the pickup loop acquires, for every player not already
carrying, exactly the first uncarried ball in scan order whose squared
distance is strictly below (player radius + ball radius)², establishing
both sides of the carry in the same step; a player already carrying is
skipped; a player with no eligible ball stays empty-handed (so a ball
at or beyond the threshold is never picked up); a ball whose id is
fully carried stays carried for the rest of the scan; and no two
players acquire the same ball id in one tick. -/
theorem C6_pickup (ps : List Player) (bs : List Ball) :
    (pickAll ps bs).1.length = ps.length ∧
    (∀ px py bs2 bid, findBall px py bs2 = some bid ↔ FirstEligible px py bs2 bid) ∧
    (∀ i p, ps[i]? = some p →
      (p.carryingBallId ≠ none → (pickAll ps bs).1[i]? = some p) ∧
      (p.carryingBallId = none →
        (∀ bid, FirstEligible p.x p.y (availAt ps bs i) bid →
          (pickAll ps bs).1[i]? = some { p with carryingBallId := some bid } ∧
          (∀ b ∈ availAt ps bs (i + 1), b.id = bid → b.carriedBy = some p.id) ∧
          (∀ b ∈ (pickAll ps bs).2, b.id = bid → b.carriedBy = some p.id)) ∧
        ((∀ b ∈ availAt ps bs i, ¬ Eligible p.x p.y b) →
          (pickAll ps bs).1[i]? = some p))) ∧
    (∀ bid q, (∀ b ∈ bs, b.id = bid → b.carriedBy = some q) →
      ∀ b' ∈ (pickAll ps bs).2, b'.id = bid → b'.carriedBy = some q) ∧
    (∀ (i j : ℕ) (p q : Player), i ≠ j → ps[i]? = some p → ps[j]? = some q →
      p.carryingBallId = none → q.carryingBallId = none →
      ∀ (p' q' : Player) (bid : ℕ),
        (pickAll ps bs).1[i]? = some p' → (pickAll ps bs).1[j]? = some q' →
        p'.carryingBallId = some bid → q'.carryingBallId = some bid → False) := by
  refine ⟨pickAll_length ps bs, findBall_iff, ?_, fun bid q h => pickAll_preserves_carried ps bs h,
    ?_⟩
  · intro i p hp
    have hget := pickAll_getElem ps bs i p hp
    refine ⟨?_, ?_⟩
    · intro hne
      rcases pickOne_shape p (availAt ps bs i) with ⟨_, he⟩ | ⟨hno, _, he⟩ |
        ⟨bid2, hno, _, he⟩
      · rw [hget, he]
      · rw [hget, he]
      · exact absurd hno hne
    · intro hnone
      constructor
      · intro bid hfe
        have hf : findBall p.x p.y (availAt ps bs i) = some bid :=
          (findBall_iff p.x p.y (availAt ps bs i) bid).mpr hfe
        have hone : pickOne p (availAt ps bs i) =
            ({ p with carryingBallId := some bid },
              ballsSetCarrier (availAt ps bs i) bid (some p.id)) := by
          unfold pickOne
          rw [hnone, hf]
        have hmark : ∀ b ∈ availAt ps bs (i + 1), b.id = bid →
            b.carriedBy = some p.id := by
          rw [availAt_succ ps bs i p hp, hone]
          exact fun b hb hbid => ballsSetCarrier_self b hb hbid
        refine ⟨by rw [hget, hone], hmark, ?_⟩
        rw [pickAll_final_balls ps bs (i + 1)]
        exact pickAll_preserves_carried _ _ hmark
      · intro hno
        have hf : findBall p.x p.y (availAt ps bs i) = none :=
          (findBall_none_iff p.x p.y (availAt ps bs i)).mpr hno
        have hone : pickOne p (availAt ps bs i) = (p, availAt ps bs i) := by
          unfold pickOne
          rw [hnone, hf]
        rw [hget, hone]
  · intro i j p q hij hpi hqj hpc hqc p' q' bid hp' hq' hp'c hq'c
    rcases Nat.lt_or_ge i j with h | h
    · exact pickAll_exclusive_aux ps bs h hpi hqj hpc hqc hp' hq' hp'c hq'c
    · have hji : j < i := lt_of_le_of_ne h (fun e => hij e.symm)
      exact pickAll_exclusive_aux ps bs hji hqj hpi hqc hpc hq' hp' hq'c hp'c

/-- Witness for C6 at a concrete state: one free player and one free
ball in range. -/
theorem C6_pickup_witness :
    (pickAll [⟨1, Team.left, 0, 0, 0, 0, 0, none⟩] [⟨10, 3, 0, none⟩]).1.length = 1 ∧
    (pickAll [⟨1, Team.left, 0, 0, 0, 0, 0, none⟩] [⟨10, 3, 0, none⟩]).1[0]? =
      some ⟨1, Team.left, 0, 0, 0, 0, 0, some 10⟩ := by
  have h := C6_pickup [⟨1, Team.left, 0, 0, 0, 0, 0, none⟩] [⟨10, 3, 0, none⟩]
  refine ⟨h.1, ?_⟩
  have h2 := ((h.2.2.1 0 ⟨1, Team.left, 0, 0, 0, 0, 0, none⟩ rfl).2 rfl).1 10 ?_
  · exact h2.1
  · refine ⟨[], ⟨10, 3, 0, none⟩, [], rfl, rfl, ⟨rfl, ?_⟩,
      fun b hb => absurd hb (List.not_mem_nil b)⟩
    show dist2 0 0 3 0 < (PLAYER_RADIUS + BALL_RADIUS) ^ 2
    norm_num [dist2, PLAYER_RADIUS, BALL_RADIUS]

theorem moveScoreOne_eq_nocarry (p : Player) (bs : List Ball) (o : Oracle)
    (hc : (movePlayer p).carryingBallId = none) :
    moveScoreOne p bs o = (movePlayer p, followBall (movePlayer p) bs, o) := by
  unfold moveScoreOne
  dsimp only
  rw [hc]

theorem moveScoreOne_eq_nogoal (p : Player) (bs : List Ball) (o : Oracle) {bid : ℕ}
    (hc : (movePlayer p).carryingBallId = some bid)
    (hg : ¬ isInGoal (movePlayer p).team (movePlayer p).x (movePlayer p).y) :
    moveScoreOne p bs o = (movePlayer p, followBall (movePlayer p) bs, o) := by
  unfold moveScoreOne
  dsimp only
  rw [hc]
  dsimp only
  rw [if_neg hg]

theorem moveScoreOne_eq_score_hit (p : Player) (bs : List Ball) (o : Oracle)
    {bid : ℕ} {b : Ball} (hc : (movePlayer p).carryingBallId = some bid)
    (hg : isInGoal (movePlayer p).team (movePlayer p).x (movePlayer p).y)
    (hgb : ballsGet (followBall (movePlayer p) bs) bid = some b) :
    moveScoreOne p bs o =
      ({ movePlayer p with score := (movePlayer p).score + 1, carryingBallId := none },
        ballsInsert (ballsDelete (followBall (movePlayer p) bs) bid) (createBall o).1,
        (createBall o).2) := by
  unfold moveScoreOne
  dsimp only
  rw [hc]
  dsimp only
  rw [if_pos hg, hgb]

theorem moveScoreOne_eq_score_miss (p : Player) (bs : List Ball) (o : Oracle)
    {bid : ℕ} (hc : (movePlayer p).carryingBallId = some bid)
    (hg : isInGoal (movePlayer p).team (movePlayer p).x (movePlayer p).y)
    (hgb : ballsGet (followBall (movePlayer p) bs) bid = none) :
    moveScoreOne p bs o =
      ({ movePlayer p with score := (movePlayer p).score + 1, carryingBallId := none },
        followBall (movePlayer p) bs, o) := by
  unfold moveScoreOne
  dsimp only
  rw [hc]
  dsimp only
  rw [if_pos hg, hgb]

/-- A ball that the current player neither follows nor scores survives
the iteration as the identical record. -/
theorem moveScoreOne_keeps_record (q : Player) (bs : List Ball) (o : Oracle)
    {b : Ball} (hb : b ∈ bs) (hq : q.carryingBallId ≠ some b.id)
    (hfr : ∀ x ∈ bs, x.id ≠ o.ids o.idIdx) :
    b ∈ (moveScoreOne q bs o).2.1 := by
  have hmq : (movePlayer q).carryingBallId = q.carryingBallId := (movePlayer_shape q).2.2.2.2.2
  have hfollow : b ∈ followBall (movePlayer q) bs := by
    unfold followBall
    cases hc : (movePlayer q).carryingBallId with
    | none => exact hb
    | some bid =>
      dsimp only
      cases hget : ballsGet bs bid with
      | none => exact hb
      | some b0 =>
        dsimp only
        unfold ballsSetPos
        have hne : ¬ b.id = bid := by
          intro he
          rw [hmq, ← he] at hc
          exact hq hc
        have : (if b.id = bid then { b with x := (movePlayer q).x, y := (movePlayer q).y }
            else b) = b := if_neg hne
        rw [← this]
        exact List.mem_map_of_mem _ hb
  cases hc : (movePlayer q).carryingBallId with
  | none => rw [moveScoreOne_eq_nocarry q bs o hc]; exact hfollow
  | some bid =>
    by_cases hg : isInGoal (movePlayer q).team (movePlayer q).x (movePlayer q).y
    · cases hget : ballsGet (followBall (movePlayer q) bs) bid with
      | none => rw [moveScoreOne_eq_score_miss q bs o hc hg hget]; exact hfollow
      | some b0 =>
        rw [moveScoreOne_eq_score_hit q bs o hc hg hget]
        dsimp only
        have hne : ¬ (b.id == bid) = true := by
          simp only [beq_iff_eq]
          intro he
          rw [hmq, ← he] at hc
          exact hq hc
        have hmemdel : b ∈ ballsDelete (followBall (movePlayer q) bs) bid := by
          unfold ballsDelete
          have h2 : b ∈ (followBall (movePlayer q) bs).eraseP (fun x => x.id == bid) ↔
              b ∈ followBall (movePlayer q) bs := List.mem_eraseP_of_neg hne
          exact h2.mpr hfollow
        have hfr2 : ∀ x ∈ ballsDelete (followBall (movePlayer q) bs) bid,
            x.id ≠ (createBall o).1.id := by
          intro x hx
          have hx2 : x.id ∈ bs.map Ball.id := by
            rw [← (followBall_shape (movePlayer q) bs).1]
            exact List.mem_map_of_mem Ball.id (ballsDelete_subset _ hx)
          obtain ⟨x0, hx0, hx0id⟩ := List.mem_map.mp hx2
          rw [← hx0id]
          exact hfr x0 hx0
        rw [ballsInsert_of_fresh hfr2]
        exact List.mem_append_left _ hmemdel
    · rw [moveScoreOne_eq_nogoal q bs o hc hg]
      exact hfollow

theorem moveScoreAll_append (l1 : List Player) :
    ∀ (l2 : List Player) (bs : List Ball) (o : Oracle),
      moveScoreAll (l1 ++ l2) bs o =
        ((moveScoreAll l1 bs o).1 ++
          (moveScoreAll l2 (moveScoreAll l1 bs o).2.1 (moveScoreAll l1 bs o).2.2).1,
          (moveScoreAll l2 (moveScoreAll l1 bs o).2.1 (moveScoreAll l1 bs o).2.2).2) := by
  induction l1 with
  | nil => intro l2 bs o; rfl
  | cons p l1 ih =>
    intro l2 bs o
    rw [List.cons_append]
    rw [show moveScoreAll (p :: (l1 ++ l2)) bs o =
      ((moveScoreOne p bs o).1 ::
        (moveScoreAll (l1 ++ l2) (moveScoreOne p bs o).2.1 (moveScoreOne p bs o).2.2).1,
        (moveScoreAll (l1 ++ l2) (moveScoreOne p bs o).2.1 (moveScoreOne p bs o).2.2).2)
      from rfl]
    rw [ih l2 (moveScoreOne p bs o).2.1 (moveScoreOne p bs o).2.2]
    rfl

theorem moveScoreAll_getElem (ps : List Player) :
    ∀ (bs : List Ball) (o : Oracle) (i : ℕ) (p : Player), ps[i]? = some p →
      (moveScoreAll ps bs o).1[i]? =
        some (moveScoreOne p (msAt ps bs o i).1 (msAt ps bs o i).2).1 := by
  induction ps with
  | nil => intro bs o i p h; simp at h
  | cons hd tl ih =>
    intro bs o i p h
    rw [show moveScoreAll (hd :: tl) bs o =
      ((moveScoreOne hd bs o).1 ::
        (moveScoreAll tl (moveScoreOne hd bs o).2.1 (moveScoreOne hd bs o).2.2).1,
        (moveScoreAll tl (moveScoreOne hd bs o).2.1 (moveScoreOne hd bs o).2.2).2)
      from rfl]
    cases i with
    | zero =>
      simp only [List.getElem?_cons_zero, Option.some.injEq] at h
      subst h
      simp [msAt, moveScoreAll]
    | succ i =>
      dsimp only
      simp only [List.getElem?_cons_succ] at h ⊢
      exact ih (moveScoreOne hd bs o).2.1 (moveScoreOne hd bs o).2.2 i p h

theorem msAt_zero (ps : List Player) (bs : List Ball) (o : Oracle) :
    msAt ps bs o 0 = (bs, o) := rfl

theorem msAt_succ (ps : List Player) (bs : List Ball) (o : Oracle) (i : ℕ) (p : Player)
    (h : ps[i]? = some p) :
    msAt ps bs o (i + 1) =
      (moveScoreOne p (msAt ps bs o i).1 (msAt ps bs o i).2).2 := by
  unfold msAt
  rw [List.take_succ, h]
  rw [moveScoreAll_append]
  rfl

/-- A ball carried by nobody among the first i players survives the
first i movement/scoring iterations as the identical record. -/
theorem msAt_keeps_record (ps : List Player) (bs : List Ball) (o : Oracle) {b : Ball}
    (hfr : BallsFresh bs o) (hb : b ∈ bs) :
    ∀ i : ℕ, (∀ j q, j < i → ps[j]? = some q → q.carryingBallId ≠ some b.id) →
      b ∈ (msAt ps bs o i).1 := by
  intro i
  induction i with
  | zero => intro _; exact hb
  | succ i ih =>
    intro hno
    cases hpi : ps[i]? with
    | none =>
      unfold msAt
      rw [List.take_succ, hpi]
      simp only [Option.toList_none, List.append_nil]
      exact ih (fun j q hj hq => hno j q (Nat.lt_succ_of_lt hj) hq)
    | some q =>
      rw [msAt_succ ps bs o i q hpi]
      have hmem := ih (fun j q2 hj hq => hno j q2 (Nat.lt_succ_of_lt hj) hq)
      have hfr2 : BallsFresh (msAt ps bs o i).1 (msAt ps bs o i).2 :=
        (moveScoreAll_fresh_len (ps.take i) hfr).1
      refine moveScoreOne_keeps_record q (msAt ps bs o i).1 (msAt ps bs o i).2 hmem
        (hno i q (Nat.lt_succ_self i) hpi) ?_
      intro x hx
      exact hfr2.2 (msAt ps bs o i).2.idIdx le_rfl x hx

theorem ballsDelete_map_sublist (bs : List Ball) (i : ℕ) :
    List.Sublist ((ballsDelete bs i).map Ball.id) (bs.map Ball.id) :=
  (List.eraseP_sublist bs).map Ball.id

theorem moveScoreOne_nodup (p : Player) (bs : List Ball) (o : Oracle)
    (hnd : (bs.map Ball.id).Nodup) (hfr : ∀ x ∈ bs, x.id ≠ o.ids o.idIdx) :
    ((moveScoreOne p bs o).2.1.map Ball.id).Nodup := by
  have hfolnd : ((followBall (movePlayer p) bs).map Ball.id).Nodup := by
    rw [(followBall_shape (movePlayer p) bs).1]
    exact hnd
  rcases moveScoreOne_balls_shape p bs o with ⟨h, _⟩ | ⟨bid, b, hget, h, _⟩
  · rw [h]
    exact hfolnd
  · rw [h]
    have hdelsub := ballsDelete_map_sublist (followBall (movePlayer p) bs) bid
    have hdelnd : ((ballsDelete (followBall (movePlayer p) bs) bid).map Ball.id).Nodup :=
      hdelsub.nodup hfolnd
    have hfr2 : ∀ x ∈ ballsDelete (followBall (movePlayer p) bs) bid,
        x.id ≠ (createBall o).1.id := by
      intro x hx
      have hx2 : x.id ∈ bs.map Ball.id := by
        rw [← (followBall_shape (movePlayer p) bs).1]
        exact List.mem_map_of_mem Ball.id (ballsDelete_subset _ hx)
      obtain ⟨x0, hx0, hx0id⟩ := List.mem_map.mp hx2
      rw [← hx0id]
      exact hfr x0 hx0
    rw [ballsInsert_of_fresh hfr2, List.map_append]
    simp only [List.map_cons, List.map_nil]
    rw [List.nodup_append]
    refine ⟨hdelnd, List.nodup_singleton _, ?_⟩
    intro x hx hy
    simp only [List.mem_singleton] at hy
    subst hy
    obtain ⟨x0, hx0, hx0id⟩ := List.mem_map.mp hx
    exact hfr2 x0 hx0 hx0id

theorem msAt_nodup (ps : List Player) (bs : List Ball) (o : Oracle)
    (hnd : (bs.map Ball.id).Nodup) (hfr : BallsFresh bs o) :
    ∀ i : ℕ, ((msAt ps bs o i).1.map Ball.id).Nodup := by
  intro i
  induction i with
  | zero => exact hnd
  | succ i ih =>
    cases hpi : ps[i]? with
    | none =>
      unfold msAt
      rw [List.take_succ, hpi]
      simp only [Option.toList_none, List.append_nil]
      exact ih
    | some q =>
      rw [msAt_succ ps bs o i q hpi]
      have hfr2 : BallsFresh (msAt ps bs o i).1 (msAt ps bs o i).2 :=
        (moveScoreAll_fresh_len (ps.take i) hfr).1
      exact moveScoreOne_nodup q (msAt ps bs o i).1 (msAt ps bs o i).2 ih
        (fun x hx => hfr2.2 (msAt ps bs o i).2.idIdx le_rfl x hx)

/-- After a scoring hit the scored id is gone: the delete removed the
unique ball bearing it and the replacement has a fresh id. -/
theorem score_hit_ball_gone (bs1 : List Ball) (o : Oracle) {bid : ℕ} {b : Ball}
    (hnd : (bs1.map Ball.id).Nodup) (hgb : ballsGet bs1 bid = some b)
    (hfr : ∀ x ∈ bs1, x.id ≠ o.ids o.idIdx) :
    ∀ b' ∈ ballsInsert (ballsDelete bs1 bid) (createBall o).1, b'.id ≠ bid := by
  have hfr2 : ∀ x ∈ ballsDelete bs1 bid, x.id ≠ (createBall o).1.id :=
    fun x hx => hfr x (ballsDelete_subset _ hx)
  rw [ballsInsert_of_fresh hfr2]
  intro b' hb'
  rcases List.mem_append.mp hb' with hmem | hmem
  · -- b' survives the delete: with Nodup ids it cannot carry the deleted id
    obtain ⟨hbm, hbid⟩ := ballsGet_mem hgb
    have hpb : (fun x : Ball => x.id == bid) b = true := by simp [hbid]
    obtain ⟨a, l1, l2, hl1, hpa, hsplit, herase⟩ :=
      @List.exists_of_eraseP Ball (fun x : Ball => x.id == bid) bs1 b hbm hpb
    unfold ballsDelete at hmem
    rw [herase] at hmem
    have hbida : a.id = bid := by simpa using hpa
    intro hcontra
    rcases List.mem_append.mp hmem with hm1 | hm2
    · have hne := hl1 b' hm1
      simp [hcontra] at hne
    · rw [hsplit] at hnd
      simp only [List.map_append, List.map_cons] at hnd
      have h3 := (List.nodup_append.mp hnd).2.1
      have h4 : a.id ∉ l2.map Ball.id := (List.nodup_cons.mp h3).1
      apply h4
      rw [hbida, ← hcontra]
      exact List.mem_map_of_mem Ball.id hm2
  · have hbe : b' = (createBall o).1 := List.mem_singleton.mp hmem
    obtain ⟨hbm, hbid⟩ := ballsGet_mem hgb
    rw [hbe]
    intro hcontra
    exact hfr b hbm (by rw [hbid, ← hcontra]; rfl)

/-- Claim C8, refuted as stated: a parseable input message whose x field
is missing is not dropped — the clamp coerces the missing component to
NaN, which is stored as the player's dirX (changing the stored input
direction), and no diagnostic is logged. -/
theorem C8_counterexample :
    (handleMessage ⟨JsNum.num 0, JsNum.num 0⟩
        (Inbound.msg (some inputTag) JsVal.undef (JsVal.num 0))).dir ≠
      (⟨JsNum.num 0, JsNum.num 0⟩ : GwDir) ∧
    (handleMessage ⟨JsNum.num 0, JsNum.num 0⟩
        (Inbound.msg (some inputTag) JsVal.undef (JsVal.num 0))).logged = false := by
  have h : handleMessage ⟨JsNum.num 0, JsNum.num 0⟩
      (Inbound.msg (some inputTag) JsVal.undef (JsVal.num 0)) =
      ⟨⟨JsNum.nan, JsNum.num (max (-1) (min 1 0))⟩, false, false⟩ := by
    simp [handleMessage, toNumber, jsMin, jsMax]
  rw [h]
  exact ⟨fun hc => by simp [GwDir.mk.injEq] at hc, rfl⟩

/-- Claim C8, amended: an unparsable payload is dropped with a logged
diagnostic, leaving the stored direction unchanged and the connection
open; a parsed message not tagged as input is ignored silently; a
numeric input message has each component independently clamped to
[-1, 1] before being stored; but an input message with a missing
(undefined) x component is not dropped — NaN is stored as dirX with no
diagnostic, and symmetrically for y. -/
theorem C8_message_handling :
    (∀ d : GwDir, handleMessage d Inbound.unparsable = ⟨d, true, false⟩) ∧
    (∀ (d : GwDir) (t : Option String) (x y : JsVal), t ≠ some inputTag →
      handleMessage d (Inbound.msg t x y) = ⟨d, false, false⟩) ∧
    (∀ (d : GwDir) (x y : ℝ),
      handleMessage d (Inbound.msg (some inputTag) (JsVal.num x) (JsVal.num y)) =
        ⟨⟨JsNum.num (max (-1) (min 1 x)), JsNum.num (max (-1) (min 1 y))⟩, false, false⟩) ∧
    (∀ (d : GwDir) (y : JsVal),
      handleMessage d (Inbound.msg (some inputTag) JsVal.undef y) =
        ⟨⟨JsNum.nan, jsMax (JsNum.num (-1)) (jsMin (JsNum.num 1) (toNumber y))⟩,
          false, false⟩) := by
  refine ⟨fun d => rfl, fun d t x y ht => ?_, fun d x y => ?_, fun d y => ?_⟩
  · simp [handleMessage, ht]
  · simp [handleMessage, toNumber, jsMin, jsMax]
  · simp [handleMessage, toNumber, jsMin, jsMax]

/-- Witness for C8_message_handling: the non-input branch applied to a
concrete frame. -/
theorem C8_message_handling_witness :
    handleMessage ⟨JsNum.num 0, JsNum.num 0⟩ (Inbound.msg none (JsVal.num 2) JsVal.undef) =
      ⟨⟨JsNum.num 0, JsNum.num 0⟩, false, false⟩ :=
  C8_message_handling.2.1 ⟨JsNum.num 0, JsNum.num 0⟩ none (JsVal.num 2) JsVal.undef
    (by simp [inputTag])

/-- Claim C9, refuted as stated: two independent runs receiving the same
(empty) input sequence over one tick broadcast different snapshots,
because the initial ball positions come from Math.random, which is not
part of the input sequence. -/
theorem C9_counterexample :
    snapTrace (initState (fun _ => 0) (fun n => n)) [Event.tick] ≠
      snapTrace (initState (fun _ => 1 / 2) (fun n => n)) [Event.tick] := by
  simp only [snapTrace, applyEvent, initState, initBalls, createBall, randInField, update,
    moveScoreAll, pickAll, collideStep, pairList, BALL_COUNT, List.range_zero,
    List.flatMap_nil, List.foldl_nil, snapshot, List.map, List.range, WORLD_WIDTH,
    WORLD_HEIGHT]
  intro h
  simp only [List.cons.injEq, Snapshot.mk.injEq, BallSnap.mk.injEq, and_true, true_and] at h
  norm_num at h

/-- Claim C9, amended: determinism holds once the random-coordinate
stream and the id stream are part of the run's fixed inputs — two runs
whose states agree componentwise (players, balls, team counter, both
oracle streams and indices) produce identical snapshot traces under the
same event sequence. -/
theorem C9_determinism (s1 s2 : GameState) (es : List Event)
    (hp : s1.players = s2.players) (hb : s1.balls = s2.balls)
    (ht : s1.nextTeamIndex = s2.nextTeamIndex)
    (hr : s1.oracle.rand = s2.oracle.rand) (hri : s1.oracle.rIdx = s2.oracle.rIdx)
    (hi : s1.oracle.ids = s2.oracle.ids) (hii : s1.oracle.idIdx = s2.oracle.idIdx) :
    snapTrace s1 es = snapTrace s2 es := by
  obtain ⟨p1, b1, n1, o1⟩ := s1
  obtain ⟨p2, b2, n2, o2⟩ := s2
  obtain ⟨r1, ri1, i1, ii1⟩ := o1
  obtain ⟨r2, ri2, i2, ii2⟩ := o2
  simp only at hp hb ht hr hri hi hii
  subst hp hb ht hr hri hi hii
  rfl

/-- Witness for C9_determinism at a concrete state and event list. -/
theorem C9_determinism_witness :
    snapTrace demoState [Event.tick] = snapTrace demoState [Event.tick] :=
  C9_determinism demoState demoState [Event.tick] rfl rfl rfl rfl rfl rfl rfl

/-- Claim C1, exercised at the failing input: the carry bijection holds
in demoState, but after the carrying player disconnects it is broken —
ball 10 still names player 1 as carrier while no live player carries it
— and it stays broken at the next tick boundary, because neither the
close handler nor the tick ever clears a dead player's carriedBy. -/
theorem C1_carry_bijection_breaks_on_disconnect :
    CarryBij demoState ∧
    ¬ CarryBij (applyEvent demoState (Event.disconnect 1)) ∧
    ¬ CarryBij (applyEvent (applyEvent demoState (Event.disconnect 1)) Event.tick) := by
  have hd : applyEvent demoState (Event.disconnect 1) =
      { players := [], balls := demoState.balls, nextTeamIndex := 1,
        oracle := demoState.oracle } := rfl
  have ht : applyEvent (applyEvent demoState (Event.disconnect 1)) Event.tick =
      { players := [], balls := demoState.balls, nextTeamIndex := 1,
        oracle := demoState.oracle } := rfl
  rw [ht, hd]
  refine ⟨⟨?_, ?_, ?_, ?_⟩, ?_, ?_⟩
  · intro b hb p hp
    simp only [demoState, List.mem_cons, List.not_mem_nil, or_false] at hb hp
    subst hp
    rcases hb with rfl | rfl | rfl | rfl | rfl <;> simp
  · intro b hb q hq
    simp only [demoState, List.mem_cons, List.not_mem_nil, or_false] at hb
    rcases hb with rfl | rfl | rfl | rfl | rfl <;> simp_all
    exact ⟨⟨1, Team.left, 100, 0, 0, 0, 0, some 10⟩, by simp [demoState], by simp [← hq]⟩
  · intro p hp i hi
    simp only [demoState, List.mem_cons, List.not_mem_nil, or_false] at hp
    subst hp
    simp only [Option.some.injEq] at hi
    exact ⟨⟨10, 100, 0, some 1⟩, by simp [demoState], by simp [← hi]⟩
  · intro p hp q hq i hpi hqi
    simp only [demoState, List.mem_cons, List.not_mem_nil, or_false] at hp hq
    rw [hp, hq]
  · intro h
    obtain ⟨p, hp, _⟩ := h.2.1 ⟨10, 100, 0, some 1⟩ (by simp [demoState]) 1 rfl
    exact List.not_mem_nil p hp
  · intro h
    obtain ⟨p, hp, _⟩ := h.2.1 ⟨10, 100, 0, some 1⟩ (by simp [demoState]) 1 rfl
    exact List.not_mem_nil p hp

/-- Claim C2, exercised at the failing input: disconnecting player 1
does remove it from all subsequent snapshots, but the ball it carried is
never freed — its carriedBy still names the dead player both right after
the disconnect and after the next tick, so it is never again eligible
for pickup. -/
theorem C2_disconnect_never_frees_ball :
    (snapshot (applyEvent demoState (Event.disconnect 1))).players = [] ∧
    (snapshot (applyEvent (applyEvent demoState (Event.disconnect 1)) Event.tick)).players
      = [] ∧
    (ballsGet (applyEvent (applyEvent demoState (Event.disconnect 1)) Event.tick).balls
        10).map Ball.carriedBy = some (some 1) :=
  ⟨rfl, rfl, rfl⟩

theorem moveScoreAll_players_length (ps : List Player) (bs : List Ball) (o : Oracle) :
    (moveScoreAll ps bs o).1.length = ps.length :=
  (moveScoreAll_scoreRel ps bs o).length_eq.symm

theorem moveScoreAll_final (ps : List Player) (bs : List Ball) (o : Oracle) (i : ℕ) :
    (moveScoreAll ps bs o).2 =
      (moveScoreAll (ps.drop i) (msAt ps bs o i).1 (msAt ps bs o i).2).2 := by
  conv =>
    lhs
    rw [← List.take_append_drop i ps]
  rw [moveScoreAll_append]
  rfl

theorem moveScoreOne_carry (p : Player) (bs : List Ball) (o : Oracle) :
    (moveScoreOne p bs o).1.carryingBallId = p.carryingBallId ∨
    (moveScoreOne p bs o).1.carryingBallId = none := by
  rcases moveScoreOne_player_shape p bs o with h | h <;> rw [h]
  · exact Or.inl (movePlayer_shape p).2.2.2.2.2
  · exact Or.inr rfl

theorem moveScoreAll_keeps_record (ps : List Player) (bs : List Ball) (o : Oracle)
    {b : Ball} (hfr : BallsFresh bs o) (hb : b ∈ bs)
    (hno : ∀ q ∈ ps, q.carryingBallId ≠ some b.id) :
    b ∈ (moveScoreAll ps bs o).2.1 := by
  have h := msAt_keeps_record ps bs o hfr hb ps.length ?_
  · unfold msAt at h
    rw [List.take_length] at h
    exact h
  · intro j q hj hq
    refine hno q ?_
    obtain ⟨hx, he⟩ := List.getElem?_eq_some.mp hq
    rw [← he]
    exact List.getElem_mem ..

theorem ballsGet_of_id_mem {bs : List Ball} {bid : ℕ}
    (h : ∃ x ∈ bs, x.id = bid) : ∃ b, ballsGet bs bid = some b := by
  obtain ⟨x, hx, hxid⟩ := h
  have hs : (bs.find? (fun b => b.id == bid)).isSome := by
    rw [List.find?_isSome]
    exact ⟨x, hx, by simp [hxid]⟩
  obtain ⟨b, hb⟩ := Option.isSome_iff_exists.mp hs
  exact ⟨b, hb⟩

theorem pickAll_no_carry (ps : List Player) (bs : List Ball) (bid : ℕ)
    (hps : ∀ q ∈ ps, q.carryingBallId ≠ some bid)
    (hbs : ∀ b ∈ bs, b.id ≠ bid) :
    ∀ q ∈ (pickAll ps bs).1, q.carryingBallId ≠ some bid := by
  intro q hq
  obtain ⟨p, hp, hrel⟩ := forall2_mem_right (pickAll_players_rel ps bs) q hq
  rcases hrel.2.2.2 with hc | ⟨bid2, hc, hmem⟩
  · rw [hc]
    exact hps p hp
  · rw [hc]
    intro he
    obtain ⟨b0, hb0, hb0id⟩ := List.mem_map.mp hmem
    injection he with he2
    exact hbs b0 hb0 (hb0id.trans he2)

theorem collideStep_no_carry (ps : List Player) (bs : List Ball) (bid : ℕ)
    (hps : ∀ q ∈ ps, q.carryingBallId ≠ some bid) :
    ∀ q ∈ (collideStep ps bs).1, q.carryingBallId ≠ some bid := by
  intro q hq
  rcases (collideStep_facts ps bs).2.1 q hq with h | ⟨p, hp, h⟩
  · rw [h]
    exact fun he => Option.noConfusion he
  · rw [h]
    exact hps p hp

theorem msAt_oracle (ps : List Player) (bs : List Ball) (o : Oracle) (i : ℕ) :
    (msAt ps bs o i).2.ids = o.ids ∧ (msAt ps bs o i).2.rand = o.rand ∧
    o.idIdx ≤ (msAt ps bs o i).2.idIdx ∧ o.rIdx ≤ (msAt ps bs o i).2.rIdx :=
  moveScoreAll_oracle (ps.take i) bs o

/-- When the player at index i carries a live ball and stands in its
own goal after moving, its loop iteration takes the scoring branch:
the ball map performs delete-and-replace and the player comes out with
the score bumped and the carry cleared. -/
theorem msAt_score_step (ps : List Player) (bs : List Ball) (o : Oracle) (i : ℕ)
    (p : Player) {bid : ℕ}
    (hp : ps[i]? = some p) (hc : p.carryingBallId = some bid)
    (hgoal : isInGoal p.team (movePlayer p).x (movePlayer p).y)
    (hex : ∃ x ∈ (msAt ps bs o i).1, x.id = bid) :
    (msAt ps bs o (i + 1)).1 =
      ballsInsert
        (ballsDelete (followBall (movePlayer p) (msAt ps bs o i).1) bid)
        (createBall (msAt ps bs o i).2).1 ∧
    (msAt ps bs o (i + 1)).2 = (createBall (msAt ps bs o i).2).2 ∧
    (moveScoreAll ps bs o).1[i]? = some
      { movePlayer p with score := (movePlayer p).score + 1, carryingBallId := none } := by
  have hc2 : (movePlayer p).carryingBallId = some bid := by
    rw [(movePlayer_shape p).2.2.2.2.2]
    exact hc
  have hg2 : isInGoal (movePlayer p).team (movePlayer p).x (movePlayer p).y := by
    rw [(movePlayer_shape p).2.1]
    exact hgoal
  have hfx : ∃ x ∈ followBall (movePlayer p) (msAt ps bs o i).1, x.id = bid := by
    obtain ⟨x, hx, hxid⟩ := hex
    have hmm : bid ∈ (followBall (movePlayer p) (msAt ps bs o i).1).map Ball.id := by
      rw [(followBall_shape (movePlayer p) (msAt ps bs o i).1).1]
      exact hxid ▸ List.mem_map_of_mem Ball.id hx
    obtain ⟨y, hy, hyid⟩ := List.mem_map.mp hmm
    exact ⟨y, hy, hyid⟩
  obtain ⟨b2, hgb⟩ := ballsGet_of_id_mem hfx
  have heq := moveScoreOne_eq_score_hit p (msAt ps bs o i).1 (msAt ps bs o i).2 hc2 hg2 hgb
  have hstep := msAt_succ ps bs o i p hp
  refine ⟨?_, ?_, ?_⟩
  · rw [hstep, heq]
  · rw [hstep, heq]
  · rw [moveScoreAll_getElem ps bs o i p hp, heq]

/-- Claim C5: if the player at index i carries a live ball bid and, after
its movement step, stands inside its own team's goal zone, and no other
player claims the same ball, then — under the uuid-freshness and
Math.random-range oracle assumptions and distinct live ball ids — one
tick increments exactly that player's score by one, clears every carry
of bid, removes the scored ball instance from the pool, keeps the pool
size, and creates one replacement ball with a fresh id, no carrier and
an in-field position, which survives to the end of the tick. -/
theorem C5_scoring (s : GameState) (i : ℕ) (p : Player) {bid : ℕ}
    (hp : s.players[i]? = some p)
    (hc : p.carryingBallId = some bid)
    (hgoal : isInGoal p.team (movePlayer p).x (movePlayer p).y)
    (hnd : (s.balls.map Ball.id).Nodup)
    (hfresh : FreshIds s)
    (hrand : RandInRange s.oracle)
    (hlive : ∃ x ∈ s.balls, x.id = bid)
    (hother : ∀ j q, s.players[j]? = some q → j ≠ i → q.carryingBallId ≠ some bid) :
    (∃ q, (update s).players[i]? = some q ∧ q.id = p.id ∧ q.team = p.team ∧
      q.score = p.score + 1) ∧
    (∀ q ∈ (update s).players, q.carryingBallId ≠ some bid) ∧
    (∀ b ∈ (update s).balls, b.id ≠ bid) ∧
    (update s).balls.length = s.balls.length ∧
    (∃ nb ∈ (moveScoreAll s.players s.balls s.oracle).2.1,
      nb.carriedBy = none ∧ InField nb.x nb.y ∧ (∀ b0 ∈ s.balls, b0.id ≠ nb.id) ∧
      ∃ nb2 ∈ (update s).balls, idPos nb2 = idPos nb) := by
  have hbf : BallsFresh s.balls s.oracle :=
    ⟨hfresh.1, fun n hn b hb => (hfresh.2 n hn).2 b hb⟩
  have hbfi : BallsFresh (msAt s.players s.balls s.oracle i).1
      (msAt s.players s.balls s.oracle i).2 :=
    (moveScoreAll_fresh_len (s.players.take i) hbf).1
  have hndi : ((msAt s.players s.balls s.oracle i).1.map Ball.id).Nodup :=
    msAt_nodup s.players s.balls s.oracle hnd hbf i
  obtain ⟨b0, hb0, hb0id⟩ := hlive
  have hsurv : b0 ∈ (msAt s.players s.balls s.oracle i).1 :=
    msAt_keeps_record s.players s.balls s.oracle hbf hb0 i
      (fun j q hj hq => by rw [hb0id]; exact hother j q hq (Nat.ne_of_lt hj))
  have hex : ∃ x ∈ (msAt s.players s.balls s.oracle i).1, x.id = bid := ⟨b0, hsurv, hb0id⟩
  obtain ⟨hballs_eq, horacle_eq, hplayer_i⟩ :=
    msAt_score_step s.players s.balls s.oracle i p hp hc hgoal hex
  have hfol_nd : ((followBall (movePlayer p)
      (msAt s.players s.balls s.oracle i).1).map Ball.id).Nodup := by
    rw [(followBall_shape (movePlayer p) (msAt s.players s.balls s.oracle i).1).1]
    exact hndi
  have hfol_fr : ∀ x ∈ followBall (movePlayer p) (msAt s.players s.balls s.oracle i).1,
      x.id ≠ (msAt s.players s.balls s.oracle i).2.ids
        (msAt s.players s.balls s.oracle i).2.idIdx := by
    intro x hx
    have hmm : x.id ∈ (msAt s.players s.balls s.oracle i).1.map Ball.id := by
      rw [← (followBall_shape (movePlayer p) (msAt s.players s.balls s.oracle i).1).1]
      exact List.mem_map_of_mem Ball.id hx
    obtain ⟨x0, hx0, hx0id⟩ := List.mem_map.mp hmm
    rw [← hx0id]
    exact hbfi.2 (msAt s.players s.balls s.oracle i).2.idIdx le_rfl x0 hx0
  have hfx : ∃ x ∈ followBall (movePlayer p) (msAt s.players s.balls s.oracle i).1,
      x.id = bid := by
    have hmm : bid ∈ (followBall (movePlayer p)
        (msAt s.players s.balls s.oracle i).1).map Ball.id := by
      rw [(followBall_shape (movePlayer p) (msAt s.players s.balls s.oracle i).1).1]
      exact hb0id ▸ List.mem_map_of_mem Ball.id hsurv
    obtain ⟨y, hy, hyid⟩ := List.mem_map.mp hmm
    exact ⟨y, hy, hyid⟩
  obtain ⟨b2, hgb⟩ := ballsGet_of_id_mem hfx
  have hgone1 : ∀ b1 ∈ (msAt s.players s.balls s.oracle (i + 1)).1, b1.id ≠ bid := by
    rw [hballs_eq]
    exact score_hit_ball_gone _ _ hfol_nd hgb hfol_fr
  have hfinal := moveScoreAll_final s.players s.balls s.oracle (i + 1)
  have hgone2 : ∀ b1 ∈ (moveScoreAll s.players s.balls s.oracle).2.1, b1.id ≠ bid := by
    rw [hfinal]
    intro b1 hb1
    rcases moveScoreAll_ball_ids (s.players.drop (i + 1))
        (msAt s.players s.balls s.oracle (i + 1)).1
        (msAt s.players s.balls s.oracle (i + 1)).2 b1 hb1 with hmem | ⟨k, hk1, hk2, hk3⟩
    · obtain ⟨x0, hx0, hx0id⟩ := List.mem_map.mp hmem
      rw [← hx0id]
      exact hgone1 x0 hx0
    · rw [hk3, (msAt_oracle s.players s.balls s.oracle (i + 1)).1]
      intro hcontra
      exact hbf.2 k
        (le_trans (msAt_oracle s.players s.balls s.oracle (i + 1)).2.2.1 hk1) b0 hb0
        (hb0id.trans hcontra.symm)
  have hids_pick := (pickAll_balls (moveScoreAll s.players s.balls s.oracle).1
    (moveScoreAll s.players s.balls s.oracle).2.1).1
  have hcol := collideStep_facts
    (pickAll (moveScoreAll s.players s.balls s.oracle).1
      (moveScoreAll s.players s.balls s.oracle).2.1).1
    (pickAll (moveScoreAll s.players s.balls s.oracle).1
      (moveScoreAll s.players s.balls s.oracle).2.1).2
  have hgone : ∀ b ∈ (update s).balls, b.id ≠ bid := by
    intro b hb hbe
    have hmm : bid ∈ ((update s).balls).map Ball.id := hbe ▸ List.mem_map_of_mem Ball.id hb
    rw [update_balls_def] at hmm
    rw [hcol.2.2.1, hids_pick] at hmm
    obtain ⟨x0, hx0, hx0id⟩ := List.mem_map.mp hmm
    exact hgone2 x0 hx0 hx0id
  have hlen : (update s).balls.length = s.balls.length := by
    rw [update_balls_def, hcol.2.2.2.2]
    rw [(pickAll_balls (moveScoreAll s.players s.balls s.oracle).1
      (moveScoreAll s.players s.balls s.oracle).2.1).2.2]
    exact (moveScoreAll_fresh_len s.players hbf).2
  have hq2 := pickAll_getElem (moveScoreAll s.players s.balls s.oracle).1
    (moveScoreAll s.players s.balls s.oracle).2.1 i _ hplayer_i
  have hmi : ((collideStep
      (pickAll (moveScoreAll s.players s.balls s.oracle).1
        (moveScoreAll s.players s.balls s.oracle).2.1).1
      (pickAll (moveScoreAll s.players s.balls s.oracle).1
        (moveScoreAll s.players s.balls s.oracle).2.1).2).1.map staticF)[i]? =
      ((pickAll (moveScoreAll s.players s.balls s.oracle).1
        (moveScoreAll s.players s.balls s.oracle).2.1).1.map staticF)[i]? := by
    rw [hcol.1]
  rw [List.getElem?_map, List.getElem?_map, hq2] at hmi
  simp only [Option.map_some'] at hmi
  obtain ⟨q3, hq3, hq3s⟩ := Option.map_eq_some'.mp hmi
  have hf3 := staticF_eq_fields hq3s
  have hstat := pickOne_player_static
    { movePlayer p with score := (movePlayer p).score + 1, carryingBallId := none }
    (availAt (moveScoreAll s.players s.balls s.oracle).1
      (moveScoreAll s.players s.balls s.oracle).2.1 i)
  have hscore : q3.score = p.score + 1 := by
    rw [hf3.2.2.1, hstat.2.2.1]
    show (movePlayer p).score + 1 = p.score + 1
    rw [(movePlayer_shape p).2.2.2.2.1]
  have hid3 : q3.id = p.id := by
    rw [hf3.1, hstat.1]
    show (movePlayer p).id = p.id
    exact (movePlayer_shape p).1
  have hteam3 : q3.team = p.team := by
    rw [hf3.2.1, hstat.2.1]
    show (movePlayer p).team = p.team
    exact (movePlayer_shape p).2.1
  have hM : ∀ q ∈ (moveScoreAll s.players s.balls s.oracle).1,
      q.carryingBallId ≠ some bid := by
    intro q hq
    obtain ⟨j, hj⟩ := List.mem_iff_getElem?.mp hq
    by_cases hji : j = i
    · subst hji
      rw [hplayer_i] at hj
      have hqe := Option.some.inj hj
      rw [← hqe]
      exact fun he => Option.noConfusion he
    · have hjlt : j < (moveScoreAll s.players s.balls s.oracle).1.length :=
        (List.getElem?_eq_some.mp hj).1
      rw [moveScoreAll_players_length] at hjlt
      have hpj : s.players[j]? = some (s.players[j]) :=
        List.getElem?_eq_getElem hjlt
      rw [moveScoreAll_getElem s.players s.balls s.oracle j _ hpj] at hj
      have hqe := Option.some.inj hj
      rw [← hqe]
      rcases moveScoreOne_carry (s.players[j])
          (msAt s.players s.balls s.oracle j).1 (msAt s.players s.balls s.oracle j).2 with
        hcc | hcc
      · rw [hcc]
        exact hother j _ hpj hji
      · rw [hcc]
        exact fun he => Option.noConfusion he
  have hP := pickAll_no_carry (moveScoreAll s.players s.balls s.oracle).1
    (moveScoreAll s.players s.balls s.oracle).2.1 bid hM hgone2
  have hnoc : ∀ q ∈ (update s).players, q.carryingBallId ≠ some bid := by
    rw [update_players_def]
    exact collideStep_no_carry _ _ bid hP
  have hid_nb : (createBall (msAt s.players s.balls s.oracle i).2).1.id =
      s.oracle.ids (msAt s.players s.balls s.oracle i).2.idIdx := by
    show (msAt s.players s.balls s.oracle i).2.ids
        (msAt s.players s.balls s.oracle i).2.idIdx = _
    rw [(msAt_oracle s.players s.balls s.oracle i).1]
  have hnb_fresh : ∀ x ∈ s.balls,
      x.id ≠ (createBall (msAt s.players s.balls s.oracle i).2).1.id := by
    intro x hx
    rw [hid_nb]
    exact hbf.2 (msAt s.players s.balls s.oracle i).2.idIdx
      (msAt_oracle s.players s.balls s.oracle i).2.2.1 x hx
  have hrand2 : RandInRange (msAt s.players s.balls s.oracle i).2 := by
    intro n
    rw [(msAt_oracle s.players s.balls s.oracle i).2.1]
    exact hrand n
  have hInF : InField (createBall (msAt s.players s.balls s.oracle i).2).1.x
      (createBall (msAt s.players s.balls s.oracle i).2).1.y := by
    have h1 := hrand2 (msAt s.players s.balls s.oracle i).2.rIdx
    have h2 := hrand2 ((msAt s.players s.balls s.oracle i).2.rIdx + 1)
    have hx : (createBall (msAt s.players s.balls s.oracle i).2).1.x =
        (msAt s.players s.balls s.oracle i).2.rand
          (msAt s.players s.balls s.oracle i).2.rIdx * WORLD_WIDTH - WORLD_WIDTH / 2 := rfl
    have hy : (createBall (msAt s.players s.balls s.oracle i).2).1.y =
        (msAt s.players s.balls s.oracle i).2.rand
          ((msAt s.players s.balls s.oracle i).2.rIdx + 1) * WORLD_HEIGHT -
            WORLD_HEIGHT / 2 := rfl
    refine ⟨?_, ?_, ?_, ?_⟩
    · rw [hx]
      simp only [WORLD_WIDTH]
      nlinarith [h1.1, h1.2]
    · rw [hx]
      simp only [WORLD_WIDTH]
      nlinarith [h1.1, h1.2]
    · rw [hy]
      simp only [WORLD_HEIGHT]
      nlinarith [h2.1, h2.2]
    · rw [hy]
      simp only [WORLD_HEIGHT]
      nlinarith [h2.1, h2.2]
  have hnb_in : (createBall (msAt s.players s.balls s.oracle i).2).1 ∈
      (msAt s.players s.balls s.oracle (i + 1)).1 := by
    rw [hballs_eq]
    rw [ballsInsert_of_fresh (fun x hx => hfol_fr x (ballsDelete_subset _ hx))]
    exact List.mem_append_right _ (List.mem_singleton.mpr rfl)
  have hbf_next : BallsFresh (msAt s.players s.balls s.oracle (i + 1)).1
      (msAt s.players s.balls s.oracle (i + 1)).2 :=
    (moveScoreAll_fresh_len (s.players.take (i + 1)) hbf).1
  have hno_next : ∀ q ∈ s.players.drop (i + 1),
      q.carryingBallId ≠ some (createBall (msAt s.players s.balls s.oracle i).2).1.id := by
    intro q hq
    rw [hid_nb]
    exact ((hfresh.2 (msAt s.players s.balls s.oracle i).2.idIdx
      (msAt_oracle s.players s.balls s.oracle i).2.2.1).1 q (List.mem_of_mem_drop hq)).2
  have hnb_surv : (createBall (msAt s.players s.balls s.oracle i).2).1 ∈
      (moveScoreAll s.players s.balls s.oracle).2.1 := by
    rw [hfinal]
    exact moveScoreAll_keeps_record (s.players.drop (i + 1))
      (msAt s.players s.balls s.oracle (i + 1)).1
      (msAt s.players s.balls s.oracle (i + 1)).2 hbf_next hnb_in hno_next
  have hidpos : ((update s).balls).map idPos =
      ((moveScoreAll s.players s.balls s.oracle).2.1).map idPos := by
    rw [update_balls_def, hcol.2.2.2.1]
    exact (pickAll_balls (moveScoreAll s.players s.balls s.oracle).1
      (moveScoreAll s.players s.balls s.oracle).2.1).2.1
  have hnb2 : ∃ nb2 ∈ (update s).balls,
      idPos nb2 = idPos (createBall (msAt s.players s.balls s.oracle i).2).1 := by
    have hmm : idPos (createBall (msAt s.players s.balls s.oracle i).2).1 ∈
        ((update s).balls).map idPos := by
      rw [hidpos]
      exact List.mem_map_of_mem idPos hnb_surv
    obtain ⟨nb2, hnb2m, hnb2e⟩ := List.mem_map.mp hmm
    exact ⟨nb2, hnb2m, hnb2e⟩
  refine ⟨⟨q3, ?_, hid3, hteam3, hscore⟩, hnoc, hgone, hlen,
    (createBall (msAt s.players s.balls s.oracle i).2).1, hnb_surv, rfl, hInF,
    hnb_fresh, hnb2⟩
  rw [update_players_def]
  exact hq3

/-- Witness for C5_scoring: the concrete goalState player scores on one
tick and the pool size is preserved. -/
theorem C5_scoring_witness :
    (∃ q, (update goalState).players[0]? = some q ∧ q.id = 1 ∧ q.team = Team.left ∧
      q.score = 0 + 1) ∧
    (update goalState).balls.length = goalState.balls.length := by
  have h := @C5_scoring goalState 0 ⟨1, Team.left, -390, 0, 0, 0, 0, some 10⟩ 10
    rfl rfl
    (by
      rw [movePlayer_zero _ ⟨rfl, rfl⟩]
      show (-390 : ℝ) < -(WORLD_WIDTH / 2) + GOAL_DEPTH ∧ |(0 : ℝ)| < GOAL_WIDTH / 2
      norm_num [WORLD_WIDTH, GOAL_DEPTH, GOAL_WIDTH])
    (by decide)
    (by
      refine ⟨fun a b hab => by simpa [goalState] using hab, fun n hn => ⟨?_, ?_⟩⟩
      · intro q hq
        have hn2 : 2 ≤ n := hn
        simp only [goalState, List.mem_singleton] at hq
        subst hq
        exact ⟨by simp [goalState]; omega, by simp [goalState]; omega⟩
      · intro b hb
        have hn2 : 2 ≤ n := hn
        fin_cases hb <;> simp [goalState] <;> omega)
    (fun n => ⟨by norm_num [goalState], by norm_num [goalState]⟩)
    ⟨⟨10, -390, 0, some 1⟩, List.mem_cons_self .., rfl⟩
    (by
      intro j q hj hne
      cases j with
      | zero => exact absurd rfl hne
      | succ k => simp [goalState] at hj)
  exact ⟨h.1, h.2.2.2.1⟩

end

end GoalBall
